import Mathlib

/-!
# Verification of the NYC Subway Art API merge engine

Shallow embedding of `src/app/main.py` (FastAPI backend joining a GeoJSON
station document with a flat list of artwork records).  Python strings are
modelled as `List Char` at the core (wrapped in `String` at the edges),
Python `float` values parsed from the upstream numeric strings as `ℚ`,
Python `dict` as an insertion-ordered association list, and fallible Python
code (statements that can raise `ValueError` / `AttributeError`) as
`Option`-returning functions, `none` meaning the whole call raises.

`math.cos` / `math.sin` and the stream of values drawn from
`random.uniform(0, 2*math.pi)` are modelled as parameters of the merge
function: an arbitrary pair of functions `cos sin : R → R` over an ordered
field together with an angle oracle `angles : ℕ → R` (the i-th draw of the
random stream, consumed once per `offset_coordinates` call).  Theorems that
need a fact about trigonometry state the Pythagorean identity as an explicit
hypothesis, which `Real.cos`/`Real.sin` satisfy.
-/

namespace ArtMap

/-! ## Characters and Python string primitives -/

/-- The regex `[^\x00-\x7F]` of `sanitize_text` keeps exactly the code points
`0x00`–`0x7F`. -/
def isAsciiChar (c : Char) : Bool := c.toNat ≤ 0x7F

/-- Python `str.isspace` restricted to the ASCII range (the character class
split on by `str.split()` with no arguments): space, `\t`, `\n`, `\v`, `\f`,
`\r` and the separator controls `\x1c`–`\x1f`.  Non-ASCII whitespace never
reaches a split in this program (the non-ASCII strip runs first). -/
def isPySpace (c : Char) : Bool :=
  c = ' ' ∨ c = '\t' ∨ c = '\n' ∨ c = '\x0b' ∨ c = '\x0c' ∨ c = '\r' ∨
  c = '\x1c' ∨ c = '\x1d' ∨ c = '\x1e' ∨ c = '\x1f'

/-- The character class (comma, whitespace, slash, hyphen) that `re.split`
splits on in `normalize_line`. -/
def isLineSep (c : Char) : Bool := c = ',' ∨ c = '/' ∨ c = '-' ∨ isPySpace c

/-- Python `str.lower` on the ASCII range (all names compared in the program
are ASCII after sanitization; upstream names are ASCII). -/
def pyLowerChar (c : Char) : Char :=
  if 'A' ≤ c ∧ c ≤ 'Z' then Char.ofNat (c.toNat + 32) else c

/-- Python `str.upper` on the ASCII range (used on line labels). -/
def pyUpperChar (c : Char) : Char :=
  if 'a' ≤ c ∧ c ≤ 'z' then Char.ofNat (c.toNat - 32) else c

def pyLower (s : String) : String := ⟨s.data.map pyLowerChar⟩

/-- Python single-character `str.replace(a, b)` — a character-wise map. -/
def replaceChar (a b : Char) (l : List Char) : List Char :=
  l.map fun c => if c = a then b else c

/-- Python `str.replace(a, '')` for a single character — deletion. -/
def removeChar (a : Char) (l : List Char) : List Char :=
  l.filter fun c => c ≠ a

/-- Splitting a character list at every character satisfying `p`, dropping
separators and empty pieces: the common core of Python `str.split()` (with
`p := isPySpace`) and of the `re.split` on runs of comma, whitespace, slash
and hyphen followed by discarding empty pieces (with `p := isLineSep`). -/
def splitDrop (p : Char → Bool) : List Char → List (List Char)
  | [] => []
  | c :: cs =>
    if p c then splitDrop p cs
    else
      match cs, splitDrop p cs with
      | [], _ => [[c]]
      | d :: _, ws =>
        if p d then [c] :: ws
        else
          match ws with
          | [] => [[c]]
          | w :: ws1 => (c :: w) :: ws1

/-- Multi-character Python `str.replace(pat, rep)`: left-to-right,
non-overlapping.  Structured with explicit fuel so that the kernel can
evaluate it; `replaceSub` supplies fuel `≥` the length of the input, which
is always enough since every step consumes at least one character.
For the (unused) empty pattern the input is returned unchanged. -/
def replaceSubAux (pat rep : List Char) : Nat → List Char → List Char
  | _, [] => []
  | 0, s => s
  | fuel + 1, c :: cs =>
    if pat ≠ [] ∧ pat.isPrefixOf (c :: cs) then
      rep ++ replaceSubAux pat rep fuel (cs.drop (pat.length - 1))
    else
      c :: replaceSubAux pat rep fuel cs

def replaceSub (pat rep : List Char) (s : List Char) : List Char :=
  replaceSubAux pat rep s.length s

/-! ## `sanitize_text` -/

/-- The four text-rewriting stages of `sanitize_text` before whitespace
collapsing, in source order: strip non-ASCII, the (dead) mis-encoding
replacement chain, newline/carriage-return removal. -/
def sanitizeStages (l : List Char) : List Char :=
  let t1 := l.filter isAsciiChar
  let t2 := replaceChar 'Ò' '"' t1
  let t3 := replaceChar 'Ó' '"' t2
  let t4 := replaceChar 'É' 'E' t3
  let t5 := replaceChar 'é' 'e' t4
  let t6 := replaceChar 'Â' 'A' t5
  let t7 := replaceChar 'â' 'a' t6
  let t8 := replaceChar '\n' ' ' t7
  removeChar '\r' t8

/-- `' '.join(pieces)`. -/
def joinSep : List (List Char) → List Char
  | [] => []
  | [w] => w
  | w :: ws => w ++ ' ' :: joinSep ws

/-- `' '.join(text.split())` — collapse whitespace runs, drop leading and
trailing whitespace. -/
def collapseSpaces (l : List Char) : List Char :=
  joinSep (splitDrop isPySpace l)

/-- The string branch of `sanitize_text` from `src/app/main.py`. -/
def sanitizeChars (l : List Char) : List Char :=
  collapseSpaces (sanitizeStages l)

def sanitizeString (s : String) : String := ⟨sanitizeChars s.data⟩

/-- A dynamically-typed Python value, as far as `sanitize_text` is concerned:
a string or one of the non-string shapes the tests feed it. -/
inductive PyVal where
  | pyStr (s : String)
  | pyNone
  | pyInt (i : Int)
  | pyFloat (q : ℚ)
  | pyBool (b : Bool)
deriving DecidableEq, Repr

/-- `sanitize_text`: non-strings pass through (`if not isinstance(text, str):
return text`), strings are rewritten by `sanitizeChars`. -/
def sanitize_text : PyVal → PyVal
  | .pyStr s => .pyStr (sanitizeString s)
  | v => v

/-! ## Upstream documents -/

/-- Python `float(s)` on the numeric strings of the stations document,
modelled for finite decimal literals (optional surrounding whitespace, sign,
digits with optional fraction part, optional exponent); `none` models the
`ValueError` raised on anything else. -/
def digitsVal (l : List Char) : ℕ :=
  l.foldl (fun a c => a * 10 + (c.toNat - '0'.toNat)) 0

def parseExp (l : List Char) : Option ℤ :=
  let (sign, l1) : ℤ × List Char :=
    match l with
    | '-' :: r => (-1, r)
    | '+' :: r => (1, r)
    | _ => (1, l)
  if l1 ≠ [] ∧ l1.all (·.isDigit) then some (sign * digitsVal l1) else none

/-- Assemble the parsed value `sign * (num / den) * 10^ex` as a single
reduced fraction (integer arithmetic only, one `mkRat`). -/
def assembleRat (sign : ℤ) (num : ℕ) (den : ℕ) (ex : ℤ) : ℚ :=
  match ex with
  | .ofNat e => mkRat (sign * (num * 10 ^ e : ℕ)) den
  | .negSucc e => mkRat (sign * num) (den * 10 ^ (e + 1))

def parseFloat (s : String) : Option ℚ :=
  let l := (((s.data.dropWhile isPySpace).reverse.dropWhile isPySpace).reverse)
  let (sign, l1) : ℤ × List Char :=
    match l with
    | '-' :: r => (-1, r)
    | '+' :: r => (1, r)
    | _ => (1, l)
  let ip := l1.takeWhile (·.isDigit)
  let rest := l1.dropWhile (·.isDigit)
  let withExp (num den : ℕ) (rest : List Char) : Option ℚ :=
    match rest with
    | [] => some (assembleRat sign num den 0)
    | e :: r2 =>
      if e = 'e' ∨ e = 'E' then (parseExp r2).map (assembleRat sign num den)
      else none
  match rest with
  | '.' :: r =>
    let fp := r.takeWhile (·.isDigit)
    let rest2 := r.dropWhile (·.isDigit)
    if ip = [] ∧ fp = [] then none
    else withExp (digitsVal ip * 10 ^ fp.length + digitsVal fp) (10 ^ fp.length) rest2
  | rest =>
    if ip = [] then none else withExp (digitsVal ip) 1 rest

/-- The `properties` object of one feature of the stations GeoJSON document. -/
structure StationProps where
  station_id : String
  stop_name : String
  daytime_routes : String
  borough : Option String
  gtfs_latitude : String
  gtfs_longitude : String
deriving DecidableEq, Repr

structure Feature where
  properties : StationProps
deriving DecidableEq, Repr

structure StationsDoc where
  features : List Feature
deriving DecidableEq, Repr

/-- The `art_image_link` field of a raw artwork record: absent, explicitly
`null`, or an object carrying an optional `url`. -/
inductive ImgField where
  | absent
  | null
  | obj (url : Option String)
deriving DecidableEq, Repr

/-- `artwork.get('art_image_link', {}).get('url')`: on an absent field the
default `{}` yields `url = None`; on an object the stored `url`; on an
explicit `null` Python calls `.get` on `None` and raises `AttributeError`
(modelled as `none`). -/
def imageUrl : ImgField → Option (Option String)
  | .absent => some none
  | .null => none
  | .obj u => some u

/-- One raw artwork record.  Fields the program reads; any of them may be
absent (or JSON `null`, which Python's `dict.get` conflates with absent for
string fields). -/
structure ArtworkRec where
  id : Option String
  station_name : Option String
  line : Option String
  artist : Option String
  art_title : Option String
  art_date : Option String
  art_material : Option String
  art_description : Option String
  art_image_link : ImgField
deriving DecidableEq, Repr

/-! ## `normalize_line` -/

/-- `normalize_line` from `merge_data`: uppercase, expand the shorthand
table by sequential substring replacement (source order: `ACE`, `BDFM`,
`NQR`, `NQRW`, `JZ`), split on runs of comma/whitespace/slash/hyphen and
drop empties.  The Python `set` of tokens is modelled as the token list;
the program only ever tests emptiness and intersection-nonemptiness, on
which duplicates and order have no effect. -/
def normalizeLine (line : String) : List String :=
  if line = "" then []
  else
    let u := line.data.map pyUpperChar
    let u := replaceSub "ACE".data "A,C,E".data u
    let u := replaceSub "BDFM".data "B,D,F,M".data u
    let u := replaceSub "NQR".data "N,Q,R".data u
    let u := replaceSub "NQRW".data "N,Q,R,W".data u
    let u := replaceSub "JZ".data "J,Z".data u
    (splitDrop isLineSep u).map String.mk

/-- Non-empty intersection of two token sets (`bool(a & b)`). -/
def lineSetsIntersect (a b : List String) : Bool :=
  a.any fun t => b.contains t

/-! ## `merge_data` -/

/-- A value of the `station_dict` comprehension: the spread feature
properties plus the parsed coordinates. -/
structure MStation where
  props : StationProps
  latitude : ℚ
  longitude : ℚ
deriving DecidableEq, Repr

/-- Insertion into a Python `dict` modelled as an ordered association list:
an existing key keeps its position and takes the new value, a new key goes
to the end. -/
def pyDictInsert (d : List (String × MStation)) (k : String) (v : MStation) :
    List (String × MStation) :=
  if d.any (fun kv => kv.1 == k) then
    d.map fun kv => if kv.1 == k then (k, v) else kv
  else d ++ [(k, v)]

/-- One step of the `station_dict` comprehension: parse the coordinates
(`float` raises on failure) and insert under the `station_id` key. -/
def stationStep (d : List (String × MStation)) (f : Feature) :
    Option (List (String × MStation)) := do
  let lat ← parseFloat f.properties.gtfs_latitude
  let lon ← parseFloat f.properties.gtfs_longitude
  pure (pyDictInsert d f.properties.station_id ⟨f.properties, lat, lon⟩)

/-- The `station_dict` comprehension of `merge_data`: one entry per feature,
keyed by `station_id`, coordinates parsed by `float` (a parse failure raises
and aborts the whole call). -/
def buildStationDict (stations : StationsDoc) :
    Option (List (String × MStation)) :=
  stations.features.foldlM stationStep []

/-- The match predicate of the `for station in station_dict.values()` loop:
sanitized case-insensitive name equality and intersecting normalized line
sets. -/
def stationMatches (artName : String) (artLines : List String)
    (st : MStation) : Bool :=
  pyLower (sanitizeString st.props.stop_name) == pyLower artName &&
  lineSetsIntersect artLines (normalizeLine st.props.daytime_routes)

/-- `get_exact_station_match`: no line tokens means no match at all;
otherwise the first station (in dict value order) matching by sanitized
name and intersecting line set. -/
def get_exact_station_match (station_dict : List (String × MStation))
    (artwork : ArtworkRec) : Option MStation :=
  let station_name := sanitizeString (artwork.station_name.getD "")
  let artwork_lines := normalizeLine (artwork.line.getD "")
  if artwork_lines.isEmpty then none
  else (station_dict.map Prod.snd).find? (stationMatches station_name artwork_lines)

/-- `offset_coordinates` over an ordered field with `math.cos`/`math.sin`
and the drawn angle as parameters; the literal `0.0001` is the exact
rational `1 / 10000`. -/
def offset_coordinates {R : Type} [LinearOrderedField R] (cosF sinF : R → R)
    (angle : R) (lat lon : R) (index : ℕ) : R × R :=
  let offset : R := ((index : R) + 1) * (1 / 10000)
  (lat + offset * cosF angle, lon + offset * sinF angle)

structure RelatedStation where
  station_id : String
  line : String
  borough : String
deriving DecidableEq, Repr

/-- `station_artwork_count[count_key] = artwork_count + 1` on the counter
map (total function, absent keys at `0`). -/
def bumpCount (counts : String → ℕ) (key : String) : String → ℕ :=
  fun k => if k = key then counts key + 1 else counts k

/-- One value of the random stream is consumed exactly when
`offset_coordinates` is called, i.e. when the prior count is non-zero. -/
def nextAngleIdx (aIdx count : ℕ) : ℕ :=
  if count = 0 then aIdx else aIdx + 1

/-- Line 161 of the source: the display coordinate for the artwork whose
zero-based per-station index is `count` — the station's exact coordinate
for the first artwork, an `offset_coordinates` result for later ones. -/
def displayFor {R : Type} [LinearOrderedField R] (cosF sinF : R → R)
    (angle : R) (st : MStation) (count : ℕ) : R × R :=
  if count = 0 then ((st.latitude : R), (st.longitude : R))
  else offset_coordinates cosF sinF angle (st.latitude : R) (st.longitude : R) count

/-- The single related-station record emitted for a matched artwork. -/
def mkRelated (st : MStation) : RelatedStation :=
  { station_id := st.props.station_id
    line := sanitizeString st.props.daytime_routes
    borough := sanitizeString (st.props.borough.getD "") }

/-- One element of the `merged_artworks` list. -/
structure MergedArtwork (R : Type) where
  art_id : Option String
  station_name : String
  artist : Option String
  art_title : Option String
  art_date : Option String
  art_material : Option String
  art_description : Option String
  art_image_link_url : Option String
  latitude : R
  longitude : R
  related_stations : List RelatedStation
deriving DecidableEq, Repr

/-- The merged record built for a matched artwork. -/
def mkMerged {R : Type} (a : ArtworkRec) (st : MStation)
    (url : Option String) (lat lon : R) : MergedArtwork R :=
  { art_id := a.id
    station_name := sanitizeString (a.station_name.getD "")
    artist := a.artist.map sanitizeString
    art_title := a.art_title.map sanitizeString
    art_date := a.art_date.map sanitizeString
    art_material := a.art_material.map sanitizeString
    art_description := a.art_description.map sanitizeString
    art_image_link_url := url
    latitude := lat
    longitude := lon
    related_stations := [mkRelated st] }

/-- The `for artwork in artworks` loop of `merge_data`.  `counts` is the
`station_artwork_count` dict (as a total function, absent keys at `0`),
`aIdx` indexes the random stream: one angle is consumed per
`offset_coordinates` call.  Building the record for an artwork whose
`art_image_link` is an explicit `null` raises (propagated as `none`). -/
def mergeLoop {R : Type} [LinearOrderedField R] (cosF sinF : R → R)
    (angles : ℕ → R) (station_dict : List (String × MStation))
    (counts : String → ℕ) (aIdx : ℕ) :
    List ArtworkRec → Option (List (MergedArtwork R))
  | [] => some []
  | a :: rest =>
    match get_exact_station_match station_dict a with
    | none => mergeLoop cosF sinF angles station_dict counts aIdx rest
    | some st => do
      let count := counts st.props.station_id
      let p : R × R := displayFor cosF sinF (angles aIdx) st count
      let url ← imageUrl a.art_image_link
      let rest1 ← mergeLoop cosF sinF angles station_dict
        (bumpCount counts st.props.station_id) (nextAngleIdx aIdx count) rest
      pure (mkMerged a st url p.1 p.2 :: rest1)

/-- `merge_data`: build the station dict, then fold the artwork list with
fresh counters.  `none` models an uncaught exception (coordinate parse
failure or `AttributeError` on a `null` image link of a matched artwork). -/
def merge_data {R : Type} [LinearOrderedField R] (cosF sinF : R → R)
    (angles : ℕ → R) (stations : StationsDoc) (artworks : List ArtworkRec) :
    Option (List (MergedArtwork R)) :=
  (buildStationDict stations).bind fun dict =>
    mergeLoop cosF sinF angles dict (fun _ => 0) 0 artworks

/-! ## `aggregate_station_data` -/

structure ArtworkSummary where
  art_id : Option String
  art_title : Option String
  artist : Option String
  art_description : Option String
  art_image_link_url : Option String
deriving DecidableEq, Repr

/-- A value of the aggregation `station_dict`: spread properties, parsed
coordinates and the mutable `artworks` list. -/
structure AggStation where
  props : StationProps
  latitude : ℚ
  longitude : ℚ
  artworks : List ArtworkSummary
deriving DecidableEq, Repr

def pyDictInsertAgg (d : List (String × AggStation)) (k : String)
    (v : AggStation) : List (String × AggStation) :=
  if d.any (fun kv => kv.1 == k) then
    d.map fun kv => if kv.1 == k then (k, v) else kv
  else d ++ [(k, v)]

/-- One step of the aggregation `station_dict` comprehension: as
`stationStep`, but the value also carries the empty `artworks` list. -/
def aggStep (d : List (String × AggStation)) (f : Feature) :
    Option (List (String × AggStation)) := do
  let lat ← parseFloat f.properties.gtfs_latitude
  let lon ← parseFloat f.properties.gtfs_longitude
  pure (pyDictInsertAgg d f.properties.station_id ⟨f.properties, lat, lon, []⟩)

def buildAggDict (stations : StationsDoc) :
    Option (List (String × AggStation)) :=
  stations.features.foldlM aggStep []

/-- The raw, case-insensitive name comparison of the aggregation loop
(`s['stop_name'].lower() == station_name.lower()` — no sanitization). -/
def aggNameMatches (sn : String) (s : AggStation) : Bool :=
  pyLower s.props.stop_name == pyLower sn

def mkSummary (a : ArtworkRec) (url : Option String) : ArtworkSummary :=
  { art_id := a.id
    art_title := a.art_title
    artist := a.artist
    art_description := a.art_description
    art_image_link_url := url }

/-- `station['artworks'].append(...)` on every name-matching station. -/
def updAgg (sn : String) (smry : ArtworkSummary) (kv : String × AggStation) :
    String × AggStation :=
  if aggNameMatches sn kv.2 then
    (kv.1, { kv.2 with artworks := kv.2.artworks ++ [smry] })
  else kv

/-- The `for artwork in artworks` loop of `aggregate_station_data`.  With a
non-empty dict, an absent `station_name` raises (`None.lower()`); a `null`
image link raises only when at least one station name-matches (the summary
is built inside the inner loop). -/
def aggLoop (dict : List (String × AggStation)) :
    List ArtworkRec → Option (List (String × AggStation))
  | [] => some dict
  | a :: rest =>
    if dict.isEmpty then aggLoop dict rest
    else do
      let sn ← a.station_name
      if (dict.map Prod.snd).any (aggNameMatches sn) then do
        let url ← imageUrl a.art_image_link
        aggLoop (dict.map (updAgg sn (mkSummary a url))) rest
      else aggLoop dict rest

structure StationWithArtworks where
  station_id : String
  station_name : String
  latitude : ℚ
  longitude : ℚ
  borough : Option String
  lines : String
  artwork_count : ℕ
  artworks : List ArtworkSummary
deriving DecidableEq, Repr

def mkStationWithArtworks (s : AggStation) : StationWithArtworks :=
  { station_id := s.props.station_id
    station_name := s.props.stop_name
    latitude := s.latitude
    longitude := s.longitude
    borough := s.props.borough
    lines := s.props.daytime_routes
    artwork_count := s.artworks.length
    artworks := s.artworks }

/-- `aggregate_station_data`: build the dict, attach summaries, emit one
entry per station with a non-empty artwork list, in dict value order. -/
def aggregate_station_data (stations : StationsDoc)
    (artworks : List ArtworkRec) : Option (List StationWithArtworks) :=
  (buildAggDict stations).bind fun dict =>
    (aggLoop dict artworks).map fun dict1 =>
      (dict1.map Prod.snd).filterMap fun s =>
        if s.artworks.isEmpty then none else some (mkStationWithArtworks s)

/-! ## `GET /artworks/{art_id}` -/

/-- The scan of `get_artwork` over the merged list: first exact identifier
match, else HTTP 404 with the fixed detail message (an unmatched stored
`art_id` of `None` compares unequal to any requested id, as in Python). -/
def get_artwork {R : Type} (merged : List (MergedArtwork R))
    (art_id : String) : Except (ℕ × String) (MergedArtwork R) :=
  match merged.find? (fun m => m.art_id == some art_id) with
  | some m => .ok m
  | none => .error (404, "Artwork not found")

/-! ## Derived notions used by the statements -/

/-- The sanitized station name of an artwork as `get_exact_station_match`
computes it. -/
def artName (a : ArtworkRec) : String := sanitizeString (a.station_name.getD "")

/-- The normalized line tokens of an artwork as `get_exact_station_match`
computes them. -/
def artLines (a : ArtworkRec) : List String := normalizeLine (a.line.getD "")

/-- An artwork record provides a usable line label iff its normalized token
set is non-empty. -/
def hasLineTokens (a : ArtworkRec) : Bool := !(artLines a).isEmpty

/-- One feature with its coordinates parsed. -/
def parseStation (f : Feature) : Option MStation := do
  let lat ← parseFloat f.properties.gtfs_latitude
  let lon ← parseFloat f.properties.gtfs_longitude
  pure (⟨f.properties, lat, lon⟩ : MStation)

/-- The features of the stations document with their coordinates parsed, in
document order (no keying, no deduplication). -/
def parsedStations (stations : StationsDoc) : Option (List MStation) :=
  stations.features.mapM parseStation

/-- The artworks `merge_data` matches (and hence emits), in input order. -/
def matchedOf (dict : List (String × MStation)) (arts : List ArtworkRec) :
    List ArtworkRec :=
  arts.filter fun a => (get_exact_station_match dict a).isSome

/-- The display coordinate of a merged artwork. -/
def displayCoord {R : Type} (m : MergedArtwork R) : R × R :=
  (m.latitude, m.longitude)

/-- The station identifiers of a merged artwork's related stations. -/
def keyIds {R : Type} (m : MergedArtwork R) : List String :=
  m.related_stations.map (·.station_id)

/-- The merged artworks of one pass assigned to the station with identifier
`s`, in emission order. -/
def sameStationSub {R : Type} (out : List (MergedArtwork R)) (s : String) :
    List (MergedArtwork R) :=
  out.filter fun m => keyIds m == [s]

/-- The display coordinate `merge_data` gives the `k`-th artwork (0-based)
assigned to station `st` when the drawn angle is `θ`: the exact station
coordinate for `k = 0`, and an offset at radius `(k+1) * 1/10000` for
`k ≥ 1`. -/
def pointAt {R : Type} [LinearOrderedField R] (cosF sinF : R → R)
    (st : MStation) (k : ℕ) (θ : R) : R × R :=
  displayFor cosF sinF θ st k

/-- The artworks a given aggregation station name-matches, in input order
(raw case-insensitive comparison, as the code performs it). -/
def aggMatched (arts : List ArtworkRec) (s : AggStation) : List ArtworkRec :=
  arts.filter fun a => aggNameMatches (a.station_name.getD "") s

/-- The summary built for an artwork, `none` when building it would raise
(explicit `null` image link). -/
def summaryOf (a : ArtworkRec) : Option ArtworkSummary :=
  (imageUrl a.art_image_link).map (mkSummary a)

/-! ## The examined claims, formalized as stated

Each `cN_claim` is a direct formalization of a claim of the specification
that the code falsifies; the corresponding counterexample theorem refutes
it at a concrete input.  `merge_data` is instantiated at `ℝ` with
`Real.cos` / `Real.sin`, quantifying over the random angle stream. -/

/-- Claim C1 as stated (its "such an artwork is not dropped" consequence,
which the full claim entails): an artwork with no line tokens whose
sanitized name matches some station still yields a merged artwork. -/
def c1_claim : Prop :=
  ∀ (angles : ℕ → ℝ) (stations : StationsDoc) (arts : List ArtworkRec)
    (out : List (MergedArtwork ℝ)),
    merge_data Real.cos Real.sin angles stations arts = some out →
    ∀ a ∈ arts, artLines a = [] →
      (∃ f ∈ stations.features,
        pyLower (sanitizeString f.properties.stop_name) = pyLower (artName a)) →
      ∃ m ∈ out, m.art_id = a.id

/-- Claim C3 as stated (its "every such station receives a copy" half):
a station whose sanitized display name equals an artwork's sanitized
station name case-insensitively gets an entry carrying that artwork. -/
def c3_claim : Prop :=
  ∀ (stations : StationsDoc) (arts : List ArtworkRec)
    (out : List StationWithArtworks),
    aggregate_station_data stations arts = some out →
    ∀ f ∈ stations.features, ∀ a ∈ arts,
      pyLower (sanitizeString f.properties.stop_name) = pyLower (artName a) →
      ∃ e ∈ out, e.station_id = f.properties.station_id ∧
        ∃ smry ∈ e.artworks, smry.art_id = a.id

/-- Claim C6 as stated: sanitization treats each curly-quote / accented
variant as its plain replacement character, i.e. sanitizing a string with
the variant in place gives the same result as sanitizing the string with
the replacement character already substituted. -/
def c6_claim : Prop :=
  ∀ s t : String, sanitizeString (s ++ "Ò" ++ t) = sanitizeString (s ++ "\"" ++ t)

/-- Claim C7 as stated: an absent or explicitly `null` `art_image_link`
never makes `merge_data` or `aggregate_station_data` fail. -/
def c7_claim : Prop :=
  ∀ (stations : StationsDoc) (arts : List ArtworkRec),
    (∀ a ∈ arts, a.art_image_link = ImgField.absent ∨
      a.art_image_link = ImgField.null) →
    (∀ f ∈ stations.features, (parseFloat f.properties.gtfs_latitude).isSome ∧
      (parseFloat f.properties.gtfs_longitude).isSome) →
    (∀ angles : ℕ → ℝ,
      (merge_data Real.cos Real.sin angles stations arts).isSome) ∧
    (aggregate_station_data stations arts).isSome

/-! ## Concrete documents for counterexamples and witnesses -/

/-- A single station named `Test Station` on lines `A,B`. -/
def oneStation : StationsDoc :=
  ⟨[⟨⟨"1", "Test Station", "A,B", some "M", "40.7", "-74.0"⟩⟩]⟩

/-- An artwork name-matching `Test Station` but carrying no line label. -/
def linelessArt : ArtworkRec :=
  ⟨some "7", some "Test Station", none, none, none, none, none, none, .absent⟩

/-- An artwork matching `Test Station` by name and line, with an explicitly
`null` image link. -/
def nullImgArt : ArtworkRec :=
  ⟨some "8", some "Test Station", some "A", none, none, none, none, none, .null⟩

/-- An artwork matching `Test Station` by name and line, image link absent. -/
def plainArt : ArtworkRec :=
  ⟨some "9", some "Test Station", some "A", some "An Artist", some "A Title",
    none, none, none, .absent⟩

/-- A station whose raw name has a double space, so its sanitized name
equals the sanitized name of `Foo Bar` though the raw names differ. -/
def doubleSpaceStation : StationsDoc :=
  ⟨[⟨⟨"1", "Foo  Bar", "A", some "M", "40.7", "-74.0"⟩⟩]⟩

def fooBarArt : ArtworkRec :=
  ⟨some "5", some "Foo Bar", some "A", none, none, none, none, none, .absent⟩

/-- Two stations, the second with an unparseable latitude, plus an artwork
matching the healthy one. -/
def badCoordStations : StationsDoc :=
  ⟨[⟨⟨"1", "Good St", "A", some "M", "40.7", "-74.0"⟩⟩,
    ⟨⟨"2", "Bad St", "B", some "M", "not-a-number", "-73.9"⟩⟩]⟩

def goodStArt : ArtworkRec :=
  ⟨some "1", some "Good St", some "A", none, none, none, none, none, .absent⟩

/-- The trivial computable trigonometry used by witnesses: `cos = 1`,
`sin = 0` satisfies the Pythagorean identity. -/
def cosQ : ℚ → ℚ := fun _ => 1

def sinQ : ℚ → ℚ := fun _ => 0

def anglesQ : ℕ → ℚ := fun _ => 0

/-- The summary built for `plainArt`. -/
def plainArtSummary : ArtworkSummary :=
  { art_id := some "9"
    art_title := some "A Title"
    artist := some "An Artist"
    art_description := none
    art_image_link_url := none }

/-- The single aggregated entry `oneStation` + `plainArt` produce. -/
def oneStationAggEntry : StationWithArtworks :=
  { station_id := "1"
    station_name := "Test Station"
    latitude := mkRat 407 10
    longitude := mkRat (-740) 10
    borough := some "M"
    lines := "A,B"
    artwork_count := 1
    artworks := [plainArtSummary] }

/-- The aggregation of `oneStation` with `plainArt`, written out. -/
def oneStationAggOut : List StationWithArtworks := [oneStationAggEntry]

/-- The merge of `oneStation` with `plainArt`, written out (the single
matched artwork sits at the station's exact coordinate). -/
def oneStationMergeOut : List (MergedArtwork ℚ) :=
  [{ art_id := some "9"
     station_name := "Test Station"
     artist := some "An Artist"
     art_title := some "A Title"
     art_date := none
     art_material := none
     art_description := none
     art_image_link_url := none
     latitude := mkRat 407 10
     longitude := mkRat (-740) 10
     related_stations := [{ station_id := "1", line := "A,B", borough := "M" }] }]

/-! # Lemmas: splitting -/

theorem splitDrop_cons_pos (p : Char → Bool) (c : Char) (cs : List Char)
    (hc : p c = true) : splitDrop p (c :: cs) = splitDrop p cs := by
  simp [splitDrop, hc]

theorem splitDrop_ne_nil (p : Char → Bool) (c : Char) (cs : List Char)
    (hc : p c = false) : splitDrop p (c :: cs) ≠ [] := by
  simp only [splitDrop, hc]
  cases cs with
  | nil => simp
  | cons d cs1 =>
    by_cases hd : p d <;> simp only [hd, Bool.false_eq_true, if_true, if_false] <;>
      [skip; cases splitDrop p (d :: cs1)] <;> simp

theorem splitDrop_singleton_neg (p : Char → Bool) (c : Char)
    (hc : p c = false) : splitDrop p [c] = [[c]] := by
  simp [splitDrop, hc]

theorem splitDrop_cons_neg_pos (p : Char → Bool) (c d : Char) (cs : List Char)
    (hc : p c = false) (hd : p d = true) :
    splitDrop p (c :: d :: cs) = [c] :: splitDrop p (d :: cs) := by
  simp [splitDrop, hc, hd]

theorem splitDrop_cons_neg_neg (p : Char → Bool) (c d : Char) (cs : List Char)
    (w : List Char) (ws1 : List (List Char)) (hc : p c = false)
    (hd : p d = false) (hws : splitDrop p (d :: cs) = w :: ws1) :
    splitDrop p (c :: d :: cs) = (c :: w) :: ws1 := by
  simp [splitDrop, hc, hd] at hws ⊢
  simp [hws]

theorem splitDrop_words (p : Char → Bool) (l : List Char) :
    ∀ w ∈ splitDrop p l, w ≠ [] ∧ ∀ c ∈ w, p c = false := by
  induction l with
  | nil => simp [splitDrop]
  | cons c cs ih =>
    by_cases hc : p c
    · rw [splitDrop_cons_pos p c cs hc]; exact ih
    · replace hc : p c = false := by simpa using hc
      cases cs with
      | nil =>
        rw [splitDrop_singleton_neg p c hc]
        intro w hw
        simp only [List.mem_singleton] at hw
        subst hw
        exact ⟨by simp, by intro x hx; simp only [List.mem_singleton] at hx; subst hx; exact hc⟩
      | cons d cs1 =>
        by_cases hd : p d
        · rw [splitDrop_cons_neg_pos p c d cs1 hc hd]
          intro w hw
          rcases List.mem_cons.mp hw with h | h
          · subst h
            exact ⟨by simp, by intro x hx; simp only [List.mem_singleton] at hx; subst hx; exact hc⟩
          · exact ih w h
        · replace hd : p d = false := by simpa using hd
          obtain ⟨w0, ws1, hws⟩ :=
            List.exists_cons_of_ne_nil (splitDrop_ne_nil p d cs1 hd)
          rw [splitDrop_cons_neg_neg p c d cs1 w0 ws1 hc hd hws]
          intro w hw
          rcases List.mem_cons.mp hw with h | h
          · subst h
            have h0 := ih w0 (by rw [hws]; exact List.mem_cons_self _ _)
            refine ⟨by simp, ?_⟩
            intro x hx
            rcases List.mem_cons.mp hx with h | h
            · subst h; exact hc
            · exact h0.2 x h
          · exact ih w (by rw [hws]; exact List.mem_cons_of_mem _ h)

theorem splitDrop_chars (p : Char → Bool) (l : List Char) :
    ∀ w ∈ splitDrop p l, ∀ c ∈ w, c ∈ l := by
  induction l with
  | nil => simp [splitDrop]
  | cons c cs ih =>
    by_cases hc : p c
    · rw [splitDrop_cons_pos p c cs hc]
      intro w hw x hx
      exact List.mem_cons_of_mem _ (ih w hw x hx)
    · replace hc : p c = false := by simpa using hc
      cases cs with
      | nil =>
        rw [splitDrop_singleton_neg p c hc]
        intro w hw x hx
        simp only [List.mem_singleton] at hw
        subst hw
        simpa using hx
      | cons d cs1 =>
        by_cases hd : p d
        · rw [splitDrop_cons_neg_pos p c d cs1 hc hd]
          intro w hw x hx
          rcases List.mem_cons.mp hw with h | h
          · subst h; simp only [List.mem_singleton] at hx; subst hx; simp
          · exact List.mem_cons_of_mem _ (ih w h x hx)
        · replace hd : p d = false := by simpa using hd
          obtain ⟨w0, ws1, hws⟩ :=
            List.exists_cons_of_ne_nil (splitDrop_ne_nil p d cs1 hd)
          rw [splitDrop_cons_neg_neg p c d cs1 w0 ws1 hc hd hws]
          intro w hw x hx
          rcases List.mem_cons.mp hw with h | h
          · subst h
            rcases List.mem_cons.mp hx with h | h
            · subst h; simp
            · exact List.mem_cons_of_mem _
                (ih w0 (by rw [hws]; exact List.mem_cons_self _ _) x h)
          · exact List.mem_cons_of_mem _
              (ih w (by rw [hws]; exact List.mem_cons_of_mem _ h) x hx)

theorem splitDrop_word_prefix (p : Char → Bool) (w t : List Char)
    (hw : w ≠ []) (hfree : ∀ c ∈ w, p c = false)
    (ht : t = [] ∨ ∃ d t1, t = d :: t1 ∧ p d = true) :
    splitDrop p (w ++ t) = w :: splitDrop p t := by
  induction w with
  | nil => exact absurd rfl hw
  | cons c w1 ih =>
    have hc : p c = false := hfree c (List.mem_cons_self _ _)
    cases w1 with
    | nil =>
      rcases ht with h | ⟨d, t1, h, hd⟩
      · subst h
        simpa [splitDrop] using splitDrop_singleton_neg p c hc
      · subst h
        simpa using splitDrop_cons_neg_pos p c d t1 hc hd
    | cons c1 w2 =>
      have hc1 : p c1 = false := hfree c1 (by simp)
      have ihh := ih (by simp) fun x hx => hfree x (List.mem_cons_of_mem _ hx)
      have step := splitDrop_cons_neg_neg p c c1 (w2 ++ t) (c1 :: w2)
        (splitDrop p t) hc hc1 (by simpa using ihh)
      simpa using step

theorem splitDrop_joinSep (p : Char → Bool) (ws : List (List Char))
    (hws : ∀ w ∈ ws, w ≠ [] ∧ ∀ c ∈ w, p c = false) (hsp : p ' ' = true) :
    splitDrop p (joinSep ws) = ws := by
  induction ws with
  | nil => simp [joinSep, splitDrop]
  | cons w ws1 ih =>
    cases ws1 with
    | nil =>
      have h := hws w (by simp)
      have := splitDrop_word_prefix p w [] h.1 h.2 (Or.inl rfl)
      simpa [joinSep, splitDrop] using this
    | cons w1 ws2 =>
      have h := hws w (by simp)
      have ih1 := ih fun x hx => hws x (List.mem_cons_of_mem _ hx)
      have hpre := splitDrop_word_prefix p w (' ' :: joinSep (w1 :: ws2))
        h.1 h.2 (Or.inr ⟨' ', _, rfl, hsp⟩)
      rw [show joinSep (w :: w1 :: ws2) = w ++ ' ' :: joinSep (w1 :: ws2) from rfl,
        hpre, splitDrop_cons_pos p ' ' _ hsp, ih1]

theorem joinSep_chars (ws : List (List Char)) (c : Char) (hc : c ∈ joinSep ws) :
    (∃ w ∈ ws, c ∈ w) ∨ c = ' ' := by
  induction ws with
  | nil => simp [joinSep] at hc
  | cons w ws1 ih =>
    cases ws1 with
    | nil => exact Or.inl ⟨w, by simp, by simpa [joinSep] using hc⟩
    | cons w1 ws2 =>
      rw [show joinSep (w :: w1 :: ws2) = w ++ ' ' :: joinSep (w1 :: ws2) from rfl] at hc
      rcases List.mem_append.mp hc with h | h
      · exact Or.inl ⟨w, by simp, h⟩
      · rcases List.mem_cons.mp h with h | h
        · exact Or.inr h
        · rcases ih h with ⟨w2, hw2, hcw⟩ | h
          · exact Or.inl ⟨w2, List.mem_cons_of_mem _ hw2, hcw⟩
          · exact Or.inr h

/-! # Lemmas: sanitization -/

theorem replaceChar_id (a b : Char) (l : List Char) (h : ∀ c ∈ l, c ≠ a) :
    replaceChar a b l = l := by
  induction l with
  | nil => rfl
  | cons c cs ih =>
    simp only [replaceChar, List.map_cons] at ih ⊢
    rw [if_neg (h c (List.mem_cons_self _ _)),
      ih fun x hx => h x (List.mem_cons_of_mem _ hx)]

theorem removeChar_id (a : Char) (l : List Char) (h : ∀ c ∈ l, c ≠ a) :
    removeChar a l = l := by
  unfold removeChar
  rw [List.filter_eq_self]
  intro c hc
  simpa using h c hc

theorem replaceChar_mem (a b : Char) (l : List Char) (c : Char)
    (hc : c ∈ replaceChar a b l) : c ∈ l ∨ c = b := by
  unfold replaceChar at hc
  rcases List.mem_map.mp hc with ⟨x, hx, hxc⟩
  by_cases hxa : x = a
  · subst hxa
    rw [if_pos rfl] at hxc
    exact Or.inr hxc.symm
  · rw [if_neg hxa] at hxc
    subst hxc
    exact Or.inl hx

theorem removeChar_mem (a : Char) (l : List Char) (c : Char)
    (hc : c ∈ removeChar a l) : c ∈ l :=
  List.mem_of_mem_filter hc

theorem replaceChar_ascii (a b : Char) (l : List Char)
    (hb : isAsciiChar b = true) (hl : ∀ c ∈ l, isAsciiChar c = true) :
    ∀ c ∈ replaceChar a b l, isAsciiChar c = true := by
  intro c hc
  rcases replaceChar_mem a b l c hc with h | h
  · exact hl c h
  · subst h; exact hb

/-- Every character surviving the rewriting stages of `sanitize_text` is
ASCII: the non-ASCII strip runs first and every replacement character is
ASCII. -/
theorem sanitizeStages_ascii (l : List Char) :
    ∀ c ∈ sanitizeStages l, isAsciiChar c = true := by
  have h1 : ∀ c ∈ l.filter isAsciiChar, isAsciiChar c = true :=
    fun c hc => (List.mem_filter.mp hc).2
  have h2 := replaceChar_ascii 'Ò' '"' _ (by decide) h1
  have h3 := replaceChar_ascii 'Ó' '"' _ (by decide) h2
  have h4 := replaceChar_ascii 'É' 'E' _ (by decide) h3
  have h5 := replaceChar_ascii 'é' 'e' _ (by decide) h4
  have h6 := replaceChar_ascii 'Â' 'A' _ (by decide) h5
  have h7 := replaceChar_ascii 'â' 'a' _ (by decide) h6
  have h8 := replaceChar_ascii '\n' ' ' _ (by decide) h7
  intro c hc
  exact h8 c (removeChar_mem '\r' _ c hc)

/-- Characters of a sanitized string are ASCII and are either non-whitespace
or the plain space used as separator. -/
theorem sanitizeChars_mem (l : List Char) (c : Char) (hc : c ∈ sanitizeChars l) :
    isAsciiChar c = true ∧ (isPySpace c = false ∨ c = ' ') := by
  unfold sanitizeChars collapseSpaces at hc
  rcases joinSep_chars _ c hc with ⟨w, hw, hcw⟩ | h
  · have hword := splitDrop_words isPySpace (sanitizeStages l) w hw
    have hchar := splitDrop_chars isPySpace (sanitizeStages l) w hw c hcw
    exact ⟨sanitizeStages_ascii l c hchar, Or.inl (hword.2 c hcw)⟩
  · subst h
    exact ⟨by decide, Or.inr rfl⟩

/-- On a list whose characters are ASCII and free of whitespace other than
plain spaces, the rewriting stages are the identity. -/
theorem sanitizeStages_id (l : List Char)
    (h : ∀ c ∈ l, isAsciiChar c = true ∧ (isPySpace c = false ∨ c = ' ')) :
    sanitizeStages l = l := by
  have hascii : ∀ c ∈ l, isAsciiChar c = true := fun c hc => (h c hc).1
  have hne : ∀ a : Char, isAsciiChar a = false → ∀ c ∈ l, c ≠ a := by
    intro a ha c hc heq
    subst heq
    rw [hascii c hc] at ha
    cases ha
  have hnl : ∀ c ∈ l, c ≠ '\n' := by
    intro c hc heq
    subst heq
    rcases (h _ hc).2 with hsp | hsp
    · cases (by decide : isPySpace '\n' = true) ▸ hsp
    · cases hsp
  have hcr : ∀ c ∈ l, c ≠ '\r' := by
    intro c hc heq
    subst heq
    rcases (h _ hc).2 with hsp | hsp
    · cases (by decide : isPySpace '\r' = true) ▸ hsp
    · cases hsp
  unfold sanitizeStages
  dsimp only
  rw [List.filter_eq_self.mpr hascii,
    replaceChar_id _ _ _ (hne 'Ò' (by decide)),
    replaceChar_id _ _ _ (hne 'Ó' (by decide)),
    replaceChar_id _ _ _ (hne 'É' (by decide)),
    replaceChar_id _ _ _ (hne 'é' (by decide)),
    replaceChar_id _ _ _ (hne 'Â' (by decide)),
    replaceChar_id _ _ _ (hne 'â' (by decide)),
    replaceChar_id _ _ _ hnl,
    removeChar_id _ _ hcr]

theorem sanitizeChars_idem (l : List Char) :
    sanitizeChars (sanitizeChars l) = sanitizeChars l := by
  have hwords := splitDrop_words isPySpace (sanitizeStages l)
  calc sanitizeChars (sanitizeChars l)
      = joinSep (splitDrop isPySpace (sanitizeStages (sanitizeChars l))) := rfl
    _ = joinSep (splitDrop isPySpace (sanitizeChars l)) := by
        rw [sanitizeStages_id _ fun c hc => sanitizeChars_mem l c hc]
    _ = joinSep (splitDrop isPySpace (sanitizeStages l)) := by
        rw [show sanitizeChars l =
          joinSep (splitDrop isPySpace (sanitizeStages l)) from rfl,
          splitDrop_joinSep isPySpace _ hwords (by decide)]
    _ = sanitizeChars l := rfl

theorem sanitizeString_idem (s : String) :
    sanitizeString (sanitizeString s) = sanitizeString s :=
  congrArg String.mk (sanitizeChars_idem s.data)

/-! # Claim C5 -/

/-- **C5.** `sanitize_text` is idempotent on every value, and every
non-string input (`None`, integers, floats, booleans) is returned
unchanged. -/
theorem c5_sanitize_idempotent_nonstring_id :
    (∀ v : PyVal, sanitize_text (sanitize_text v) = sanitize_text v) ∧
    sanitize_text .pyNone = .pyNone ∧
    (∀ i : Int, sanitize_text (.pyInt i) = .pyInt i) ∧
    (∀ q : ℚ, sanitize_text (.pyFloat q) = .pyFloat q) ∧
    (∀ b : Bool, sanitize_text (.pyBool b) = .pyBool b) := by
  refine ⟨?_, rfl, fun i => rfl, fun q => rfl, fun b => rfl⟩
  intro v
  cases v with
  | pyStr s => exact congrArg PyVal.pyStr (sanitizeString_idem s)
  | pyNone => rfl
  | pyInt i => rfl
  | pyFloat q => rfl
  | pyBool b => rfl

/-! # Claim C6 -/

/-- **C6 counterexample.** Sanitization does not treat the curly-quote
variant as a plain double quote: sanitizing `aÒb` gives `ab`, not `a"b`
(the non-ASCII strip deletes the character before the replacement chain
could see it). -/
theorem c6_counterexample : ¬ c6_claim := by
  intro h
  exact absurd (h "a" "b") (by decide)

/-- **C6 amended.** The mis-encoded variants are removed by the non-ASCII
strip, which runs before the replacement chain, so they are deleted rather
than replaced: sanitized output is pure ASCII, `aÒb` sanitizes to `ab`,
and on the specification's own example the curly-quote characters vanish
without leaving a quote character behind. -/
theorem c6_amended_strip_not_replace :
    (∀ s : String, (sanitizeString s).data.all isAsciiChar = true) ∧
    sanitizeString "aÒb" = "ab" ∧
    sanitizeString "A beautiful paintingÒ with random charactersÓ" =
      "A beautiful painting with random characters" := by
  refine ⟨?_, by decide, by decide⟩
  intro s
  rw [List.all_eq_true]
  exact fun c hc => (sanitizeChars_mem s.data c hc).1

/-! # Claim C8 -/

/-- **C8.** The artwork-by-id scan returns a merged artwork whose identifier
exactly equals the requested id whenever one exists, and fails with
HTTP 404 / `Artwork not found` precisely when no merged artwork matches. -/
theorem c8_get_artwork_spec {R : Type} (merged : List (MergedArtwork R))
    (artId : String) :
    (get_artwork merged artId = Except.error (404, "Artwork not found") ↔
      ∀ m ∈ merged, m.art_id ≠ some artId) ∧
    (∀ m, get_artwork merged artId = Except.ok m →
      m.art_id = some artId ∧ m ∈ merged) ∧
    ((∃ m ∈ merged, m.art_id = some artId) →
      ∃ m, get_artwork merged artId = Except.ok m ∧ m.art_id = some artId) := by
  unfold get_artwork
  cases hf : merged.find? (fun m => m.art_id == some artId) with
  | none =>
    rw [List.find?_eq_none] at hf
    refine ⟨⟨fun _ m hm => ?_, fun _ => rfl⟩,
      fun m hm => Except.noConfusion hm, ?_⟩
    · simpa using hf m hm
    · rintro ⟨m, hm, he⟩
      exact absurd he (by simpa using hf m hm)
  | some m0 =>
    have hid : m0.art_id = some artId := by
      have hp := List.find?_some hf
      simpa using hp
    have hm0 : m0 ∈ merged := List.mem_of_find?_eq_some hf
    refine ⟨⟨fun h => Except.noConfusion h, fun h => absurd hid (h m0 hm0)⟩,
      ?_, ?_⟩
    · intro m hm
      have hmm : m0 = m := by injection hm
      subst hmm
      exact ⟨hid, hm0⟩
    · intro _
      exact ⟨m0, rfl, hid⟩

/-! # Claim C9 -/

/-- **C9.** Every aggregated station entry carries an `artwork_count` equal
to the length of its `artworks` list. -/
theorem c9_artwork_count (stations : StationsDoc) (arts : List ArtworkRec)
    (out : List StationWithArtworks)
    (h : aggregate_station_data stations arts = some out) :
    ∀ e ∈ out, e.artwork_count = e.artworks.length := by
  intro e he
  unfold aggregate_station_data at h
  rw [Option.bind_eq_some] at h
  obtain ⟨dict, -, h⟩ := h
  rw [Option.map_eq_some'] at h
  obtain ⟨dict1, -, hout⟩ := h
  subst hout
  rw [List.mem_filterMap] at he
  obtain ⟨s, -, hs⟩ := he
  by_cases hempty : s.artworks.isEmpty
  · rw [if_pos hempty] at hs
    cases hs
  · rw [if_neg hempty] at hs
    have : mkStationWithArtworks s = e := by injection hs
    subst this
    rfl

/-- **C9 witness.** The invariant instantiated on a one-station,
one-artwork document. -/
theorem c9_witness :
    oneStationAggEntry.artwork_count = oneStationAggEntry.artworks.length :=
  c9_artwork_count oneStation [plainArt] oneStationAggOut (by decide)
    oneStationAggEntry (by decide)

/-! # Claim C2 -/

/-- **C2 (code bug).** A single malformed coordinate string aborts the whole
merge and the whole aggregation — `float` raises `ValueError` inside the
dict comprehension — instead of excluding just the malformed station: on a
document whose second station has latitude `not-a-number`, both functions
fail even though an artwork matches the healthy first station. -/
theorem c2_bad_coordinate_aborts :
    merge_data Real.cos Real.sin (fun _ => (0 : ℝ))
      badCoordStations [goodStArt] = none ∧
    aggregate_station_data badCoordStations [goodStArt] = none :=
  ⟨rfl, by decide⟩

/-! # Counterexamples to C1, C3, C7 as stated -/

/-- **C1 counterexample.** An artwork with no line label is dropped by
`merge_data` even when its sanitized name matches a station: with one
station `Test Station` and one line-less artwork naming it, the merge
output is empty. -/
theorem c1_counterexample : ¬ c1_claim := by
  intro h
  have hout : merge_data Real.cos Real.sin (fun _ => (0 : ℝ))
      oneStation [linelessArt] = some [] := rfl
  have := h (fun _ => 0) oneStation [linelessArt] [] hout linelessArt
    (by decide) (by decide)
    ⟨⟨⟨"1", "Test Station", "A,B", some "M", "40.7", "-74.0"⟩⟩,
      by decide, by decide⟩
  simp at this

/-- **C3 counterexample.** Aggregation matches on the raw station name, not
the sanitized one: a station named `Foo  Bar` (double space) never receives
an artwork naming `Foo Bar`, although the sanitized names agree. -/
theorem c3_counterexample : ¬ c3_claim := by
  intro h
  have hout : aggregate_station_data doubleSpaceStation [fooBarArt] =
      some [] := by decide
  have := h doubleSpaceStation [fooBarArt] [] hout
    ⟨⟨"1", "Foo  Bar", "A", some "M", "40.7", "-74.0"⟩⟩ (by decide)
    fooBarArt (by decide) (by decide)
  simp at this

/-- **C7 counterexample.** An explicitly `null` `art_image_link` on a
matched artwork makes `merge_data` raise (`None.get`), so the claim's
"absent or null never fails" is false. -/
theorem c7_counterexample : ¬ c7_claim := by
  intro h
  have hmerge : merge_data Real.cos Real.sin (fun _ => (0 : ℝ))
      oneStation [nullImgArt] = none := rfl
  obtain ⟨hm, -⟩ := h oneStation [nullImgArt] (by decide) (by decide)
  have := hm fun _ => 0
  rw [hmerge] at this
  simp at this

/-! # Claim C1 (amended) -/

theorem get_exact_none_of_no_lines (station_dict : List (String × MStation))
    (a : ArtworkRec) (h : (artLines a).isEmpty = true) :
    get_exact_station_match station_dict a = none := by
  unfold get_exact_station_match
  dsimp only
  rw [show normalizeLine (a.line.getD "") = artLines a from rfl, h]
  rfl

theorem mergeLoop_filter_hasLines {R : Type} [LinearOrderedField R]
    (cosF sinF : R → R) (angles : ℕ → R) (dict : List (String × MStation))
    (arts : List ArtworkRec) :
    ∀ counts aIdx,
      mergeLoop cosF sinF angles dict counts aIdx (arts.filter hasLineTokens) =
        mergeLoop cosF sinF angles dict counts aIdx arts := by
  induction arts with
  | nil => intro counts aIdx; rfl
  | cons a rest ih =>
    intro counts aIdx
    by_cases hl : hasLineTokens a = true
    · rw [List.filter_cons_of_pos hl]
      show mergeLoop cosF sinF angles dict counts aIdx
          (a :: rest.filter hasLineTokens) = _
      unfold mergeLoop
      cases hm : get_exact_station_match dict a with
      | none => exact ih counts aIdx
      | some st => simp only [ih]
    · rw [List.filter_cons_of_neg hl]
      have hnone : get_exact_station_match dict a = none :=
        get_exact_none_of_no_lines dict a
          (by simpa [hasLineTokens] using hl)
      conv_rhs => rw [mergeLoop]
      rw [hnone]
      exact ih counts aIdx

/-- **C1 amended.** `merge_data` drops every artwork that provides no line
label: filtering such artworks out of the input changes nothing, because
`get_exact_station_match` refuses to match an artwork whose normalized
line-token set is empty.  (The all-name-matching behaviour the claim
describes exists only in `aggregate_station_data`; see C3.) -/
theorem c1_amended_lineless_dropped {R : Type} [LinearOrderedField R]
    (cosF sinF : R → R) (angles : ℕ → R) (stations : StationsDoc)
    (arts : List ArtworkRec) :
    merge_data cosF sinF angles stations (arts.filter hasLineTokens) =
      merge_data cosF sinF angles stations arts ∧
    ∀ station_dict a, (artLines a).isEmpty = true →
      get_exact_station_match station_dict a = none := by
  constructor
  · unfold merge_data
    cases hb : buildStationDict stations with
    | none => rfl
    | some dict => exact mergeLoop_filter_hasLines cosF sinF angles dict arts _ _
  · exact fun d a h => get_exact_none_of_no_lines d a h

/-- **C1 amended, witness.** The filter identity and the no-line refusal at
the concrete line-less artwork. -/
theorem c1_witness :
    merge_data cosQ sinQ anglesQ oneStation
        ([linelessArt].filter hasLineTokens) =
      merge_data cosQ sinQ anglesQ oneStation [linelessArt] ∧
    get_exact_station_match [] linelessArt = none :=
  ⟨(c1_amended_lineless_dropped cosQ sinQ anglesQ oneStation [linelessArt]).1,
    (c1_amended_lineless_dropped cosQ sinQ anglesQ oneStation [linelessArt]).2
      [] linelessArt (by decide)⟩

/-! # Equation lemmas for the merge and aggregation loops -/

theorem mergeLoop_cons_none {R : Type} [LinearOrderedField R]
    (cosF sinF : R → R) (angles : ℕ → R) (dict : List (String × MStation))
    (counts : String → ℕ) (aIdx : ℕ) (a : ArtworkRec) (rest : List ArtworkRec)
    (hm : get_exact_station_match dict a = none) :
    mergeLoop cosF sinF angles dict counts aIdx (a :: rest) =
      mergeLoop cosF sinF angles dict counts aIdx rest := by
  simp only [mergeLoop]
  rw [hm]

theorem mergeLoop_cons_some {R : Type} [LinearOrderedField R]
    (cosF sinF : R → R) (angles : ℕ → R) (dict : List (String × MStation))
    (counts : String → ℕ) (aIdx : ℕ) (a : ArtworkRec) (rest : List ArtworkRec)
    (st : MStation) (hm : get_exact_station_match dict a = some st) :
    mergeLoop cosF sinF angles dict counts aIdx (a :: rest) =
      (imageUrl a.art_image_link).bind fun url =>
        (mergeLoop cosF sinF angles dict
            (bumpCount counts st.props.station_id)
            (nextAngleIdx aIdx (counts st.props.station_id)) rest).bind
          fun rest1 =>
            some (mkMerged a st url
              (displayFor cosF sinF (angles aIdx) st (counts st.props.station_id)).1
              (displayFor cosF sinF (angles aIdx) st (counts st.props.station_id)).2
              :: rest1) := by
  simp only [mergeLoop]
  rw [hm]
  rfl

theorem aggLoop_cons_empty (a : ArtworkRec) (rest : List ArtworkRec) :
    aggLoop [] (a :: rest) = aggLoop [] rest := by
  simp only [aggLoop]
  simp

theorem aggLoop_cons_noname (dict : List (String × AggStation))
    (a : ArtworkRec) (rest : List ArtworkRec) (hne : dict.isEmpty = false)
    (hsn : a.station_name = none) : aggLoop dict (a :: rest) = none := by
  simp only [aggLoop]
  rw [hne, hsn]
  rfl

theorem aggLoop_cons_match (dict : List (String × AggStation)) (sn : String)
    (a : ArtworkRec) (rest : List ArtworkRec) (hne : dict.isEmpty = false)
    (hsn : a.station_name = some sn)
    (hmatch : (dict.map Prod.snd).any (aggNameMatches sn) = true) :
    aggLoop dict (a :: rest) =
      (imageUrl a.art_image_link).bind fun url =>
        aggLoop (dict.map (updAgg sn (mkSummary a url))) rest := by
  simp only [aggLoop]
  rw [hne, hsn]
  show (if (dict.map Prod.snd).any (aggNameMatches sn) = true then _ else _) = _
  rw [if_pos hmatch]
  rfl

theorem aggLoop_cons_nomatch (dict : List (String × AggStation)) (sn : String)
    (a : ArtworkRec) (rest : List ArtworkRec) (hne : dict.isEmpty = false)
    (hsn : a.station_name = some sn)
    (hmatch : (dict.map Prod.snd).any (aggNameMatches sn) = false) :
    aggLoop dict (a :: rest) = aggLoop dict rest := by
  simp only [aggLoop]
  rw [hne, hsn]
  show (if (dict.map Prod.snd).any (aggNameMatches sn) = true then _ else _) = _
  rw [if_neg (by rw [hmatch]; exact Bool.false_ne_true)]

/-! # Lemmas towards C7: absent image links cannot fail -/

theorem foldlM_option_isSome {α β : Type} (step : β → α → Option β)
    (l : List α) (h : ∀ a ∈ l, ∀ b, (step b a).isSome = true) :
    ∀ b, ∃ r, l.foldlM step b = some r := by
  induction l with
  | nil => exact fun b => ⟨b, rfl⟩
  | cons a t ih =>
    intro b
    obtain ⟨b1, hb1⟩ := Option.isSome_iff_exists.mp (h a (List.mem_cons_self _ _) b)
    obtain ⟨r, hr⟩ := ih (fun x hx b2 => h x (List.mem_cons_of_mem _ hx) b2) b1
    refine ⟨r, ?_⟩
    rw [List.foldlM_cons, hb1]
    simpa using hr

theorem buildStationDict_isSome (stations : StationsDoc)
    (h : ∀ f ∈ stations.features,
      (parseFloat f.properties.gtfs_latitude).isSome = true ∧
      (parseFloat f.properties.gtfs_longitude).isSome = true) :
    ∃ dict, buildStationDict stations = some dict := by
  apply foldlM_option_isSome
  intro f hf b
  obtain ⟨lat, hlat⟩ := Option.isSome_iff_exists.mp (h f hf).1
  obtain ⟨lon, hlon⟩ := Option.isSome_iff_exists.mp (h f hf).2
  simp [stationStep, hlat, hlon]

theorem buildAggDict_isSome (stations : StationsDoc)
    (h : ∀ f ∈ stations.features,
      (parseFloat f.properties.gtfs_latitude).isSome = true ∧
      (parseFloat f.properties.gtfs_longitude).isSome = true) :
    ∃ dict, buildAggDict stations = some dict := by
  apply foldlM_option_isSome
  intro f hf b
  obtain ⟨lat, hlat⟩ := Option.isSome_iff_exists.mp (h f hf).1
  obtain ⟨lon, hlon⟩ := Option.isSome_iff_exists.mp (h f hf).2
  simp [aggStep, hlat, hlon]

theorem mergeLoop_isSome {R : Type} [LinearOrderedField R]
    (cosF sinF : R → R) (angles : ℕ → R) (dict : List (String × MStation))
    (arts : List ArtworkRec)
    (himg : ∀ a ∈ arts, a.art_image_link = ImgField.absent) :
    ∀ counts aIdx, ∃ out,
      mergeLoop cosF sinF angles dict counts aIdx arts = some out := by
  induction arts with
  | nil => exact fun counts aIdx => ⟨[], rfl⟩
  | cons a rest ih =>
    intro counts aIdx
    have ihh := ih fun x hx => himg x (List.mem_cons_of_mem _ hx)
    cases hm : get_exact_station_match dict a with
    | none =>
      obtain ⟨out, hout⟩ := ihh counts aIdx
      exact ⟨out, by rw [mergeLoop_cons_none _ _ _ _ _ _ _ _ hm]; exact hout⟩
    | some st =>
      obtain ⟨out, hout⟩ := ihh (bumpCount counts st.props.station_id)
        (nextAngleIdx aIdx (counts st.props.station_id))
      refine ⟨mkMerged a st none
        (displayFor cosF sinF (angles aIdx) st (counts st.props.station_id)).1
        (displayFor cosF sinF (angles aIdx) st (counts st.props.station_id)).2
        :: out, ?_⟩
      rw [mergeLoop_cons_some _ _ _ _ _ _ _ _ _ hm,
        himg a (List.mem_cons_self _ _), hout]
      rfl

theorem mergeLoop_url_none {R : Type} [LinearOrderedField R]
    (cosF sinF : R → R) (angles : ℕ → R) (dict : List (String × MStation))
    (arts : List ArtworkRec)
    (himg : ∀ a ∈ arts, a.art_image_link = ImgField.absent) :
    ∀ counts aIdx out,
      mergeLoop cosF sinF angles dict counts aIdx arts = some out →
      ∀ m ∈ out, m.art_image_link_url = none := by
  induction arts with
  | nil =>
    intro counts aIdx out h
    cases h
    simp
  | cons a rest ih =>
    intro counts aIdx out h
    have ihh := ih fun x hx => himg x (List.mem_cons_of_mem _ hx)
    cases hm : get_exact_station_match dict a with
    | none =>
      rw [mergeLoop_cons_none _ _ _ _ _ _ _ _ hm] at h
      exact ihh counts aIdx out h
    | some st =>
      rw [mergeLoop_cons_some _ _ _ _ _ _ _ _ _ hm,
        himg a (List.mem_cons_self _ _)] at h
      cases hrec : mergeLoop cosF sinF angles dict
          (bumpCount counts st.props.station_id)
          (nextAngleIdx aIdx (counts st.props.station_id)) rest with
      | none => rw [hrec] at h; cases h
      | some rest1 =>
        rw [hrec] at h
        have hout : mkMerged a st none
            (displayFor cosF sinF (angles aIdx) st (counts st.props.station_id)).1
            (displayFor cosF sinF (angles aIdx) st (counts st.props.station_id)).2
            :: rest1 = out := by injection h
        subst hout
        intro m hm1
        rcases List.mem_cons.mp hm1 with h1 | h1
        · subst h1; rfl
        · exact ihh _ _ rest1 hrec m h1

theorem aggLoop_isSome (arts : List ArtworkRec)
    (himg : ∀ a ∈ arts, a.art_image_link = ImgField.absent)
    (hnames : ∀ a ∈ arts, a.station_name ≠ none) :
    ∀ dict, ∃ d1, aggLoop dict arts = some d1 := by
  induction arts with
  | nil => exact fun dict => ⟨dict, rfl⟩
  | cons a rest ih =>
    intro dict
    have ihh := ih (fun x hx => himg x (List.mem_cons_of_mem _ hx))
      (fun x hx => hnames x (List.mem_cons_of_mem _ hx))
    cases dict with
    | nil =>
      obtain ⟨d1, hd1⟩ := ihh []
      exact ⟨d1, by rw [aggLoop_cons_empty, hd1]⟩
    | cons kv0 dt =>
      have hne : ((kv0 :: dt).isEmpty) = false := rfl
      obtain ⟨sn, hsn⟩ :=
        Option.ne_none_iff_exists'.mp (hnames a (List.mem_cons_self _ _))
      cases hmatch : (((kv0 :: dt)).map Prod.snd).any (aggNameMatches sn) with
      | true =>
        obtain ⟨d1, hd1⟩ := ihh ((kv0 :: dt).map (updAgg sn (mkSummary a none)))
        refine ⟨d1, ?_⟩
        rw [aggLoop_cons_match _ sn a rest hne hsn hmatch,
          himg a (List.mem_cons_self _ _)]
        simpa using hd1
      | false =>
        obtain ⟨d1, hd1⟩ := ihh (kv0 :: dt)
        exact ⟨d1, by rw [aggLoop_cons_nomatch _ sn a rest hne hsn hmatch, hd1]⟩

theorem aggLoop_url_none (arts : List ArtworkRec)
    (himg : ∀ a ∈ arts, a.art_image_link = ImgField.absent) :
    ∀ dict d1, aggLoop dict arts = some d1 →
      (∀ kv ∈ dict, ∀ s ∈ kv.2.artworks, s.art_image_link_url = none) →
      ∀ kv ∈ d1, ∀ s ∈ kv.2.artworks, s.art_image_link_url = none := by
  induction arts with
  | nil =>
    intro dict d1 h hinit
    have hdd : dict = d1 := by injection h
    subst hdd
    exact hinit
  | cons a rest ih =>
    intro dict d1 h hinit
    have ihh := ih fun x hx => himg x (List.mem_cons_of_mem _ hx)
    cases dict with
    | nil =>
      rw [aggLoop_cons_empty] at h
      exact ihh [] d1 h hinit
    | cons kv0 dt =>
      have hne : ((kv0 :: dt).isEmpty) = false := rfl
      cases hsn : a.station_name with
      | none => rw [aggLoop_cons_noname _ a rest hne hsn] at h; cases h
      | some sn =>
        cases hmatch : ((kv0 :: dt).map Prod.snd).any (aggNameMatches sn) with
        | false =>
          rw [aggLoop_cons_nomatch _ sn a rest hne hsn hmatch] at h
          exact ihh _ d1 h hinit
        | true =>
          rw [aggLoop_cons_match _ sn a rest hne hsn hmatch,
            himg a (List.mem_cons_self _ _)] at h
          simp only [imageUrl, Option.some_bind] at h
          refine ihh _ d1 h ?_
          intro kv hkv s hs
          rcases List.mem_map.mp hkv with ⟨kv1, hkv1, hupd⟩
          subst hupd
          unfold updAgg at hs
          by_cases hmm : aggNameMatches sn kv1.2 = true
          · rw [if_pos hmm] at hs
            rcases List.mem_append.mp hs with h1 | h1
            · exact hinit kv1 hkv1 s h1
            · rw [List.mem_singleton] at h1
              subst h1
              rfl
          · rw [if_neg hmm] at hs
            exact hinit kv1 hkv1 s hs

theorem pyDictInsertAgg_artworks_nil (d : List (String × AggStation))
    (k : String) (v : AggStation) (hd : ∀ kv ∈ d, kv.2.artworks = [])
    (hv : v.artworks = []) :
    ∀ kv ∈ pyDictInsertAgg d k v, kv.2.artworks = [] := by
  unfold pyDictInsertAgg
  by_cases hk : d.any (fun kv => kv.1 == k) = true
  · rw [if_pos hk]
    intro kv hkv
    rcases List.mem_map.mp hkv with ⟨kv1, hkv1, hupd⟩
    by_cases he : kv1.1 == k
    · rw [if_pos he] at hupd; subst hupd; exact hv
    · rw [if_neg he] at hupd; subst hupd; exact hd kv1 hkv1
  · rw [if_neg hk]
    intro kv hkv
    rcases List.mem_append.mp hkv with h1 | h1
    · exact hd kv h1
    · rw [List.mem_singleton] at h1
      subst h1
      exact hv

theorem buildAggDict_artworks_nil (stations : StationsDoc)
    (dict : List (String × AggStation)) (h : buildAggDict stations = some dict) :
    ∀ kv ∈ dict, kv.2.artworks = [] := by
  unfold buildAggDict at h
  suffices haux : ∀ (feats : List Feature) (d : List (String × AggStation)),
      (∀ kv ∈ d, kv.2.artworks = []) →
      ∀ dict, feats.foldlM aggStep d = some dict →
      ∀ kv ∈ dict, kv.2.artworks = [] by
    exact haux stations.features [] (by simp) dict h
  intro feats
  induction feats with
  | nil =>
    intro d hd dict h1
    have : d = dict := by injection h1
    subst this
    exact hd
  | cons f ft ih =>
    intro d hd dict h1
    rw [List.foldlM_cons] at h1
    cases hstep : aggStep d f with
    | none => rw [hstep] at h1; cases h1
    | some d2 =>
      rw [hstep] at h1
      refine ih d2 ?_ dict (by simpa using h1)
      unfold aggStep at hstep
      cases hlat : parseFloat f.properties.gtfs_latitude with
      | none => rw [hlat] at hstep; cases hstep
      | some lat =>
        cases hlon : parseFloat f.properties.gtfs_longitude with
        | none => rw [hlat, hlon] at hstep; cases hstep
        | some lon =>
          rw [hlat, hlon] at hstep
          have heq : pyDictInsertAgg d f.properties.station_id
              ⟨f.properties, lat, lon, []⟩ = d2 := by
            injection hstep
          subst heq
          exact pyDictInsertAgg_artworks_nil d _ _ hd rfl

/-! # Claim C7 (amended) -/

/-- **C7 amended.** For a batch of artworks whose `art_image_link` is
*absent* (and which carry a station name), with parseable station
coordinates, both `merge_data` and `aggregate_station_data` succeed, and
every emitted image url is `None`.  (An explicit `null` image link instead
fails the call when its artwork matches a station — see the
counterexample.) -/
theorem c7_amended_absent_ok {R : Type} [LinearOrderedField R]
    (cosF sinF : R → R) (angles : ℕ → R) (stations : StationsDoc)
    (arts : List ArtworkRec)
    (himg : ∀ a ∈ arts, a.art_image_link = ImgField.absent)
    (hcoords : ∀ f ∈ stations.features,
      (parseFloat f.properties.gtfs_latitude).isSome = true ∧
      (parseFloat f.properties.gtfs_longitude).isSome = true)
    (hnames : ∀ a ∈ arts, a.station_name ≠ none) :
    ((merge_data cosF sinF angles stations arts).isSome = true ∧
      (aggregate_station_data stations arts).isSome = true) ∧
    (∀ out, merge_data cosF sinF angles stations arts = some out →
      ∀ m ∈ out, m.art_image_link_url = none) ∧
    ∀ out, aggregate_station_data stations arts = some out →
      ∀ e ∈ out, ∀ s ∈ e.artworks, s.art_image_link_url = none := by
  obtain ⟨dict, hdict⟩ := buildStationDict_isSome stations hcoords
  obtain ⟨adict, hadict⟩ := buildAggDict_isSome stations hcoords
  refine ⟨⟨?_, ?_⟩, ?_, ?_⟩
  · obtain ⟨out, hout⟩ :=
      mergeLoop_isSome cosF sinF angles dict arts himg (fun _ => 0) 0
    unfold merge_data
    rw [hdict]
    simp [hout]
  · obtain ⟨d1, hd1⟩ := aggLoop_isSome arts himg hnames adict
    unfold aggregate_station_data
    rw [hadict]
    simp [hd1]
  · intro out hout
    unfold merge_data at hout
    rw [hdict] at hout
    simp only [Option.some_bind] at hout
    exact mergeLoop_url_none cosF sinF angles dict arts himg _ _ out hout
  · intro out hout
    unfold aggregate_station_data at hout
    rw [hadict] at hout
    simp only [Option.some_bind] at hout
    rw [Option.map_eq_some'] at hout
    obtain ⟨d1, hd1, hfd⟩ := hout
    subst hfd
    intro e he s hs
    rw [List.mem_filterMap] at he
    obtain ⟨st, hst, hste⟩ := he
    by_cases hemp : st.artworks.isEmpty
    · rw [if_pos hemp] at hste; cases hste
    · rw [if_neg hemp] at hste
      have hmke : mkStationWithArtworks st = e := by injection hste
      subst hmke
      rcases List.mem_map.mp hst with ⟨kv, hkv, hkvs⟩
      subst hkvs
      have hinit : ∀ kv ∈ adict, ∀ s ∈ kv.2.artworks,
          s.art_image_link_url = none := by
        intro kv0 hkv0 s0 hs0
        rw [buildAggDict_artworks_nil stations adict hadict kv0 hkv0] at hs0
        cases hs0
      exact aggLoop_url_none arts himg adict d1 hd1 hinit kv hkv s hs

/-- **C7 amended, witness.** Instantiated on `oneStation` with the
absent-image artwork `plainArt`. -/
theorem c7_witness :
    ((merge_data cosQ sinQ anglesQ oneStation [plainArt]).isSome = true ∧
      (aggregate_station_data oneStation [plainArt]).isSome = true) ∧
    (∀ out, merge_data cosQ sinQ anglesQ oneStation [plainArt] = some out →
      ∀ m ∈ out, m.art_image_link_url = none) ∧
    ∀ out, aggregate_station_data oneStation [plainArt] = some out →
      ∀ e ∈ out, ∀ s ∈ e.artworks, s.art_image_link_url = none :=
  c7_amended_absent_ok cosQ sinQ anglesQ oneStation [plainArt]
    (by decide) (by decide) (by decide)

/-! # Claim C3 (amended) -/

theorem filterMap_congr_mem {α β : Type} (l : List α) (f g : α → Option β)
    (h : ∀ a ∈ l, f a = g a) : l.filterMap f = l.filterMap g := by
  induction l with
  | nil => rfl
  | cons a t ih =>
    rw [List.filterMap_cons, List.filterMap_cons, h a (List.mem_cons_self _ _),
      ih fun x hx => h x (List.mem_cons_of_mem _ hx)]

/-- The aggregation loop appends to each station exactly the summaries of
the artworks its raw name matches, in input order. -/
theorem aggLoop_spec (arts : List ArtworkRec) :
    ∀ dict d1, aggLoop dict arts = some d1 →
      d1 = dict.map fun kv => (kv.1,
        { kv.2 with artworks :=
            kv.2.artworks ++ (aggMatched arts kv.2).filterMap summaryOf }) := by
  induction arts with
  | nil =>
    intro dict d1 h
    have hdd : dict = d1 := by injection h
    subst hdd
    symm
    refine (List.map_congr_left ?_).trans (List.map_id _)
    intro kv _
    show (kv.1, { kv.2 with artworks :=
      kv.2.artworks ++ (aggMatched [] kv.2).filterMap summaryOf }) = kv
    rw [show (aggMatched [] kv.2).filterMap summaryOf = [] from rfl,
      List.append_nil]
  | cons a rest ih =>
    intro dict d1 h
    cases dict with
    | nil =>
      rw [aggLoop_cons_empty] at h
      rw [ih [] d1 h]
      rfl
    | cons kv0 dt =>
      have hne : ((kv0 :: dt).isEmpty) = false := rfl
      cases hsn : a.station_name with
      | none => rw [aggLoop_cons_noname _ a rest hne hsn] at h; cases h
      | some sn =>
        have hpred : ∀ kv : String × AggStation,
            aggNameMatches (a.station_name.getD "") kv.2 =
              aggNameMatches sn kv.2 := by
          intro kv; rw [hsn]; rfl
        cases hmatch : ((kv0 :: dt).map Prod.snd).any (aggNameMatches sn) with
        | false =>
          rw [aggLoop_cons_nomatch _ sn a rest hne hsn hmatch] at h
          rw [ih _ d1 h]
          have hnone : ∀ kv ∈ kv0 :: dt, aggNameMatches sn kv.2 = false := by
            intro kv hkv
            have := List.any_eq_false.mp hmatch kv.2 (List.mem_map_of_mem _ hkv)
            simpa using this
          refine List.map_congr_left ?_
          intro kv hkv
          have hfa : aggMatched (a :: rest) kv.2 = aggMatched rest kv.2 := by
            unfold aggMatched
            rw [List.filter_cons_of_neg]
            rw [hpred kv, hnone kv hkv]
            exact Bool.false_ne_true
          rw [hfa]
        | true =>
          rw [aggLoop_cons_match _ sn a rest hne hsn hmatch] at h
          cases hurl : imageUrl a.art_image_link with
          | none => rw [hurl] at h; cases h
          | some url =>
            rw [hurl] at h
            simp only [Option.some_bind] at h
            rw [ih _ d1 h, List.map_map]
            refine List.map_congr_left ?_
            intro kv hkv
            show (fun kv : String × AggStation => (kv.1,
              { kv.2 with artworks := kv.2.artworks ++
                  (aggMatched rest kv.2).filterMap summaryOf }))
                (updAgg sn (mkSummary a url) kv) = _
            have hsumm : summaryOf a = some (mkSummary a url) := by
              unfold summaryOf
              rw [hurl]
              rfl
            unfold updAgg
            by_cases hmm : aggNameMatches sn kv.2 = true
            · rw [if_pos hmm]
              have hfa : aggMatched (a :: rest) kv.2 =
                  a :: aggMatched rest kv.2 := by
                unfold aggMatched
                rw [List.filter_cons_of_pos]
                rw [hpred kv]
                exact hmm
              rw [hfa, List.filterMap_cons, hsumm]
              show (kv.1, { kv.2 with artworks :=
                (kv.2.artworks ++ [mkSummary a url]) ++
                  (aggMatched rest kv.2).filterMap summaryOf }) = _
              rw [List.append_assoc]
              rfl
            · rw [if_neg hmm]
              have hfa : aggMatched (a :: rest) kv.2 =
                  aggMatched rest kv.2 := by
                unfold aggMatched
                rw [List.filter_cons_of_neg]
                rw [hpred kv]
                simpa using hmm
              rw [hfa]

/-- **C3 amended.** In `aggregate_station_data` an artwork summary is
attached to exactly those stations whose *raw* display name equals the
artwork's *raw* station name case-insensitively (no sanitization): the
output is precisely one entry per dict station whose raw-name-matched
artwork list is non-empty, carrying the summaries of exactly those
artworks in input order. -/
theorem c3_amended_raw_name_attachment (stations : StationsDoc)
    (arts : List ArtworkRec) (out : List StationWithArtworks)
    (h : aggregate_station_data stations arts = some out) :
    ∃ dict, buildAggDict stations = some dict ∧
      out = (dict.map Prod.snd).filterMap fun s =>
        if ((aggMatched arts s).filterMap summaryOf).isEmpty then none
        else some (mkStationWithArtworks
          { s with artworks := (aggMatched arts s).filterMap summaryOf }) := by
  unfold aggregate_station_data at h
  rw [Option.bind_eq_some] at h
  obtain ⟨dict, hdict, h⟩ := h
  rw [Option.map_eq_some'] at h
  obtain ⟨d1, hd1, hout⟩ := h
  subst hout
  refine ⟨dict, hdict, ?_⟩
  rw [aggLoop_spec arts dict d1 hd1, List.map_map, List.filterMap_map]
  rw [show ((fun s : AggStation =>
      if s.artworks.isEmpty = true then none
      else some (mkStationWithArtworks s)) ∘ Prod.snd ∘ fun kv =>
        (kv.1, { kv.2 with artworks :=
          kv.2.artworks ++ (aggMatched arts kv.2).filterMap summaryOf })) =
    fun kv : String × AggStation =>
      if (kv.2.artworks ++ (aggMatched arts kv.2).filterMap summaryOf).isEmpty
        then none
      else some (mkStationWithArtworks { kv.2 with artworks :=
        kv.2.artworks ++ (aggMatched arts kv.2).filterMap summaryOf })
    from rfl]
  rw [List.filterMap_map]
  apply filterMap_congr_mem
  intro kv hkv
  rw [buildAggDict_artworks_nil stations dict hdict kv hkv]
  rfl

/-- **C3 amended, witness.** Instantiated on `oneStation` with `plainArt`. -/
theorem c3_witness :
    ∃ dict, buildAggDict oneStation = some dict ∧
      oneStationAggOut = (dict.map Prod.snd).filterMap fun s =>
        if ((aggMatched [plainArt] s).filterMap summaryOf).isEmpty then none
        else some (mkStationWithArtworks
          { s with artworks := (aggMatched [plainArt] s).filterMap summaryOf }) :=
  c3_amended_raw_name_attachment oneStation [plainArt] oneStationAggOut
    (by decide)

/-! # Lemmas towards C10: first-match correspondence -/

/-- The no-line-token guard of `get_exact_station_match` is subsumed by the
match predicate (an empty token set intersects nothing), so the function is
exactly a first-match scan over the dict values. -/
theorem get_exact_eq_find? (dict : List (String × MStation)) (a : ArtworkRec) :
    get_exact_station_match dict a =
      (dict.map Prod.snd).find? (stationMatches (artName a) (artLines a)) := by
  by_cases hl : (artLines a).isEmpty = true
  · have hnil : artLines a = [] := by
      cases hh : artLines a with
      | nil => rfl
      | cons x xs => rw [hh] at hl; cases hl
    unfold get_exact_station_match
    dsimp only
    rw [show normalizeLine (a.line.getD "") = artLines a from rfl, hnil,
      if_pos (show ([] : List String).isEmpty = true from rfl)]
    symm
    rw [List.find?_eq_none]
    intro st _
    unfold stationMatches lineSetsIntersect
    simp
  · unfold get_exact_station_match
    dsimp only
    rw [show normalizeLine (a.line.getD "") = artLines a from rfl,
      if_neg (by simpa using hl)]
    rfl

theorem stationStep_eq (d : List (String × MStation)) (f : Feature) :
    stationStep d f =
      (parseStation f).map fun st => pyDictInsert d f.properties.station_id st := by
  unfold stationStep parseStation
  cases hlat : parseFloat f.properties.gtfs_latitude with
  | none => rfl
  | some lat =>
    cases hlon : parseFloat f.properties.gtfs_longitude with
    | none => rfl
    | some lon => rfl

theorem pyDictInsert_append (d : List (String × MStation)) (k : String)
    (v : MStation) (h : ∀ kv ∈ d, kv.1 ≠ k) :
    pyDictInsert d k v = d ++ [(k, v)] := by
  unfold pyDictInsert
  rw [if_neg]
  rw [List.any_eq_true]
  rintro ⟨kv, hkv, he⟩
  exact h kv hkv (by simpa using he)

/-- With pairwise-distinct `station_id`s no overwrite ever happens, so the
station dict is exactly the parsed features zipped with their ids, in
document order. -/
theorem buildStationDict_eq_parsed (stations : StationsDoc)
    (hnodup : (stations.features.map fun f => f.properties.station_id).Nodup) :
    buildStationDict stations = (parsedStations stations).map
      fun sts => sts.map fun st => (st.props.station_id, st) := by
  unfold buildStationDict parsedStations
  suffices haux : ∀ (feats : List Feature) (d : List (String × MStation)),
      (feats.map fun f => f.properties.station_id).Nodup →
      (∀ f ∈ feats, ∀ kv ∈ d, kv.1 ≠ f.properties.station_id) →
      feats.foldlM stationStep d = (feats.mapM parseStation).map
        fun sts => d ++ sts.map fun st => (st.props.station_id, st) by
    have := haux stations.features [] hnodup (by simp)
    simpa using this
  intro feats
  induction feats with
  | nil =>
    intro d _ _
    rw [show List.mapM parseStation ([] : List Feature) =
      some ([] : List MStation) from rfl]
    simp
  | cons f ft ih =>
    intro d hnd hdisj
    rw [List.foldlM_cons, List.mapM_cons, stationStep_eq]
    cases hp : parseStation f with
    | none => rfl
    | some st =>
      have hid : st.props.station_id = f.properties.station_id := by
        unfold parseStation at hp
        cases hlat : parseFloat f.properties.gtfs_latitude with
        | none => rw [hlat] at hp; cases hp
        | some lat =>
          cases hlon : parseFloat f.properties.gtfs_longitude with
          | none => rw [hlat, hlon] at hp; cases hp
          | some lon =>
            rw [hlat, hlon] at hp
            have hst : (⟨f.properties, lat, lon⟩ : MStation) = st := by
              injection hp
            subst hst
            rfl
      simp only [Option.map_some', Option.some_bind]
      rw [pyDictInsert_append d _ st
        (fun kv hkv => hdisj f (List.mem_cons_self _ _) kv hkv)]
      have hnd1 : (ft.map fun f => f.properties.station_id).Nodup :=
        (List.nodup_cons.mp (by simpa using hnd)).2
      have hni : f.properties.station_id ∉
          ft.map fun f1 => f1.properties.station_id :=
        (List.nodup_cons.mp (by simpa using hnd)).1
      have hdisj1 : ∀ f1 ∈ ft, ∀ kv ∈ d ++ [(f.properties.station_id, st)],
          kv.1 ≠ f1.properties.station_id := by
        intro f1 hf1 kv hkv
        rcases List.mem_append.mp hkv with h1 | h1
        · exact hdisj f1 (List.mem_cons_of_mem _ hf1) kv h1
        · rw [List.mem_singleton] at h1
          subst h1
          intro he
          apply hni
          have he1 : f.properties.station_id = f1.properties.station_id := he
          rw [he1]
          exact List.mem_map_of_mem _ hf1
      show List.foldlM stationStep (d ++ [(f.properties.station_id, st)]) ft =
        Option.map
          (fun sts => d ++ List.map (fun st => (st.props.station_id, st)) sts)
          (Option.bind (List.mapM parseStation ft) fun bs => some (st :: bs))
      rw [ih (d ++ [(f.properties.station_id, st)]) hnd1 hdisj1]
      cases hmm : ft.mapM parseStation with
      | none => rfl
      | some sts =>
        simp only [Option.some_bind, Option.map_some']
        rw [List.map_cons, hid, List.append_assoc]
        rfl

/-- The matched artworks correspond one-to-one, in order, with the merged
output; each merged artwork's related-station list is the singleton built
from its artwork's match. -/
theorem mergeLoop_forall2 {R : Type} [LinearOrderedField R]
    (cosF sinF : R → R) (angles : ℕ → R) (dict : List (String × MStation))
    (arts : List ArtworkRec) :
    ∀ counts aIdx out,
      mergeLoop cosF sinF angles dict counts aIdx arts = some out →
      List.Forall₂ (fun (m : MergedArtwork R) (a : ArtworkRec) =>
        ∃ st, get_exact_station_match dict a = some st ∧
          m.related_stations = [mkRelated st] ∧ m.art_id = a.id)
        out (matchedOf dict arts) := by
  induction arts with
  | nil =>
    intro counts aIdx out h
    have hout : ([] : List (MergedArtwork R)) = out := by injection h
    subst hout
    exact List.Forall₂.nil
  | cons a rest ih =>
    intro counts aIdx out h
    cases hm : get_exact_station_match dict a with
    | none =>
      rw [mergeLoop_cons_none _ _ _ _ _ _ _ _ hm] at h
      have hfa : matchedOf dict (a :: rest) = matchedOf dict rest := by
        unfold matchedOf
        rw [List.filter_cons_of_neg]
        rw [hm]
        simp
      rw [hfa]
      exact ih counts aIdx out h
    | some st =>
      rw [mergeLoop_cons_some _ _ _ _ _ _ _ _ _ hm] at h
      cases hurl : imageUrl a.art_image_link with
      | none => rw [hurl] at h; cases h
      | some url =>
        rw [hurl] at h
        simp only [Option.some_bind] at h
        cases hrec : mergeLoop cosF sinF angles dict
            (bumpCount counts st.props.station_id)
            (nextAngleIdx aIdx (counts st.props.station_id)) rest with
        | none => rw [hrec] at h; cases h
        | some rest1 =>
          rw [hrec] at h
          simp only [Option.some_bind, Option.some_inj] at h
          subst h
          have hfa : matchedOf dict (a :: rest) = a :: matchedOf dict rest := by
            unfold matchedOf
            rw [List.filter_cons_of_pos]
            rw [hm]
            rfl
          rw [hfa]
          exact List.Forall₂.cons ⟨st, hm, rfl, rfl⟩ (ih _ _ rest1 hrec)

/-! # Claim C10 -/

/-- **C10.** With pairwise-distinct station ids, every merged artwork's
related-station list has length exactly one, and that single station is the
*first* parsed feature, in document order, whose sanitized name matches the
artwork case-insensitively and whose normalized line set intersects the
artwork's; merged artworks correspond in order to the artworks admitting
such a match. -/
theorem c10_single_first_match {R : Type} [LinearOrderedField R]
    (cosF sinF : R → R) (angles : ℕ → R) (stations : StationsDoc)
    (arts : List ArtworkRec) (out : List (MergedArtwork R))
    (hnodup : (stations.features.map fun f => f.properties.station_id).Nodup)
    (h : merge_data cosF sinF angles stations arts = some out) :
    ∃ sts, parsedStations stations = some sts ∧
      List.Forall₂ (fun (m : MergedArtwork R) (a : ArtworkRec) =>
        ∃ st, sts.find? (stationMatches (artName a) (artLines a)) = some st ∧
          m.related_stations = [mkRelated st] ∧ m.art_id = a.id)
        out (arts.filter fun a =>
          (sts.find? (stationMatches (artName a) (artLines a))).isSome) := by
  unfold merge_data at h
  rw [Option.bind_eq_some] at h
  obtain ⟨dict, hdict, h⟩ := h
  rw [buildStationDict_eq_parsed stations hnodup] at hdict
  rw [Option.map_eq_some'] at hdict
  obtain ⟨sts, hsts, hdicteq⟩ := hdict
  subst hdicteq
  refine ⟨sts, hsts, ?_⟩
  have hvals : (sts.map fun st => (st.props.station_id, st)).map Prod.snd =
      sts := by
    rw [List.map_map]
    exact List.map_id _
  have hge : ∀ a, get_exact_station_match
      (sts.map fun st => (st.props.station_id, st)) a =
      sts.find? (stationMatches (artName a) (artLines a)) := by
    intro a
    rw [get_exact_eq_find?, hvals]
  have hcorr := mergeLoop_forall2 cosF sinF angles _ arts _ _ out h
  have hfilt : matchedOf (sts.map fun st => (st.props.station_id, st)) arts =
      arts.filter fun a =>
        (sts.find? (stationMatches (artName a) (artLines a))).isSome := by
    unfold matchedOf
    apply List.filter_congr
    intro a _
    rw [hge a]
  rw [hfilt] at hcorr
  refine hcorr.imp ?_
  intro m a hma
  obtain ⟨st, hst, hrel, hart⟩ := hma
  exact ⟨st, by rw [← hge a]; exact hst, hrel, hart⟩

/-- **C10 witness.** Instantiated on `oneStation` with `plainArt`. -/
theorem c10_witness :
    ∃ sts, parsedStations oneStation = some sts ∧
      List.Forall₂ (fun (m : MergedArtwork ℚ) (a : ArtworkRec) =>
        ∃ st, sts.find? (stationMatches (artName a) (artLines a)) = some st ∧
          m.related_stations = [mkRelated st] ∧ m.art_id = a.id)
        oneStationMergeOut ([plainArt].filter fun a =>
          (sts.find? (stationMatches (artName a) (artLines a))).isSome) :=
  c10_single_first_match cosQ sinQ anglesQ oneStation [plainArt]
    oneStationMergeOut (by decide) (by decide)

/-! # Lemmas towards C4: distinct display coordinates -/

theorem keys_nodup_unique {β : Type} (d : List (String × β))
    (hnd : (d.map Prod.fst).Nodup) (k : String) (x y : β)
    (hx : (k, x) ∈ d) (hy : (k, y) ∈ d) : x = y := by
  induction d with
  | nil => cases hx
  | cons kv dt ih =>
    rw [List.map_cons, List.nodup_cons] at hnd
    rcases List.mem_cons.mp hx with h1 | h1 <;>
      rcases List.mem_cons.mp hy with h2 | h2
    · rw [← h1] at h2
      injection h2 with _ h2
      exact h2.symm
    · exfalso
      apply hnd.1
      rw [show kv.1 = k from congrArg Prod.fst h1.symm]
      exact List.mem_map_of_mem _ h2
    · exfalso
      apply hnd.1
      rw [show kv.1 = k from congrArg Prod.fst h2.symm]
      exact List.mem_map_of_mem _ h1
    · exact ih hnd.2 h1 h2

theorem pyDictInsert_wf (d : List (String × MStation)) (k : String)
    (v : MStation) (hnd : (d.map Prod.fst).Nodup)
    (hids : ∀ kv ∈ d, kv.2.props.station_id = kv.1)
    (hv : v.props.station_id = k) :
    ((pyDictInsert d k v).map Prod.fst).Nodup ∧
    ∀ kv ∈ pyDictInsert d k v, kv.2.props.station_id = kv.1 := by
  unfold pyDictInsert
  by_cases hk : d.any (fun kv => kv.1 == k) = true
  · rw [if_pos hk]
    constructor
    · have hkeys : (d.map fun kv => if kv.1 == k then (k, v) else kv).map
          Prod.fst = d.map Prod.fst := by
        rw [List.map_map]
        apply List.map_congr_left
        intro kv _
        show Prod.fst (if kv.1 == k then (k, v) else kv) = kv.1
        by_cases he : (kv.1 == k) = true
        · rw [if_pos he]
          exact (eq_of_beq he).symm
        · rw [if_neg he]
      rw [hkeys]
      exact hnd
    · intro kv hkv
      rcases List.mem_map.mp hkv with ⟨kv1, hkv1, hupd⟩
      by_cases he : (kv1.1 == k) = true
      · rw [if_pos he] at hupd
        subst hupd
        exact hv
      · rw [if_neg he] at hupd
        subst hupd
        exact hids kv1 hkv1
  · rw [if_neg hk]
    constructor
    · rw [List.map_append, List.nodup_append]
      refine ⟨hnd, by simp, ?_⟩
      intro x hx
      simp only [List.map_cons, List.map_nil, List.mem_singleton]
      intro hxk
      rcases List.mem_map.mp hx with ⟨kv, hkv, hfst⟩
      have hk2 : (d.any fun kv => kv.1 == k) = false := by
        cases hh : d.any fun kv => kv.1 == k
        · rfl
        · exact absurd hh hk
      have hkvf := List.any_eq_false.mp hk2 kv hkv
      apply hkvf
      rw [hfst, hxk]
      exact beq_self_eq_true _
    · intro kv hkv
      rcases List.mem_append.mp hkv with h1 | h1
      · exact hids kv h1
      · rw [List.mem_singleton] at h1
        subst h1
        exact hv

theorem buildStationDict_wf (stations : StationsDoc)
    (dict : List (String × MStation))
    (h : buildStationDict stations = some dict) :
    (dict.map Prod.fst).Nodup ∧
    ∀ kv ∈ dict, kv.2.props.station_id = kv.1 := by
  unfold buildStationDict at h
  suffices haux : ∀ (feats : List Feature) (d : List (String × MStation)),
      (d.map Prod.fst).Nodup → (∀ kv ∈ d, kv.2.props.station_id = kv.1) →
      ∀ dict, feats.foldlM stationStep d = some dict →
      (dict.map Prod.fst).Nodup ∧ ∀ kv ∈ dict, kv.2.props.station_id = kv.1 by
    exact haux stations.features [] (by simp) (by simp) dict h
  intro feats
  induction feats with
  | nil =>
    intro d hnd hids dict h1
    have hdd : d = dict := by injection h1
    subst hdd
    exact ⟨hnd, hids⟩
  | cons f ft ih =>
    intro d hnd hids dict h1
    rw [List.foldlM_cons, stationStep_eq] at h1
    cases hp : parseStation f with
    | none => rw [hp] at h1; cases h1
    | some st =>
      rw [hp] at h1
      simp only [Option.map_some', Option.some_bind] at h1
      have hid : st.props.station_id = f.properties.station_id := by
        unfold parseStation at hp
        cases hlat : parseFloat f.properties.gtfs_latitude with
        | none => rw [hlat] at hp; cases hp
        | some lat =>
          cases hlon : parseFloat f.properties.gtfs_longitude with
          | none => rw [hlat, hlon] at hp; cases hp
          | some lon =>
            rw [hlat, hlon] at hp
            have hst : (⟨f.properties, lat, lon⟩ : MStation) = st := by
              injection hp
            subst hst
            rfl
      have hwf := pyDictInsert_wf d f.properties.station_id st hnd hids hid
      exact ih _ hwf.1 hwf.2 dict h1

theorem sameStationSub_cons {R : Type} (m : MergedArtwork R)
    (out : List (MergedArtwork R)) (s : String) :
    sameStationSub (m :: out) s =
      if keyIds m == [s] then m :: sameStationSub out s
      else sameStationSub out s := by
  unfold sameStationSub
  rw [List.filter_cons]

theorem mergeLoop_sub_outside {R : Type} [LinearOrderedField R]
    (cosF sinF : R → R) (angles : ℕ → R) (dict : List (String × MStation))
    (hids : ∀ kv ∈ dict, kv.2.props.station_id = kv.1)
    (arts : List ArtworkRec) :
    ∀ counts aIdx out,
      mergeLoop cosF sinF angles dict counts aIdx arts = some out →
      ∀ s, (∀ kv ∈ dict, kv.1 ≠ s) → sameStationSub out s = [] := by
  induction arts with
  | nil =>
    intro counts aIdx out h s _
    have hout : ([] : List (MergedArtwork R)) = out := by injection h
    subst hout
    rfl
  | cons a rest ih =>
    intro counts aIdx out h s hs
    cases hm : get_exact_station_match dict a with
    | none =>
      rw [mergeLoop_cons_none _ _ _ _ _ _ _ _ hm] at h
      exact ih counts aIdx out h s hs
    | some st =>
      rw [mergeLoop_cons_some _ _ _ _ _ _ _ _ _ hm] at h
      cases hurl : imageUrl a.art_image_link with
      | none => rw [hurl] at h; cases h
      | some url =>
        rw [hurl] at h
        simp only [Option.some_bind] at h
        cases hrec : mergeLoop cosF sinF angles dict
            (bumpCount counts st.props.station_id)
            (nextAngleIdx aIdx (counts st.props.station_id)) rest with
        | none => rw [hrec] at h; cases h
        | some rest1 =>
          rw [hrec] at h
          simp only [Option.some_bind, Option.some_inj] at h
          subst h
          have hstmem : st ∈ dict.map Prod.snd := by
            rw [get_exact_eq_find?] at hm
            exact List.mem_of_find?_eq_some hm
          rcases List.mem_map.mp hstmem with ⟨kv, hkv, hkvs⟩
          have hne : st.props.station_id ≠ s := by
            rw [show st.props.station_id = kv.1 from by
              rw [← hkvs]; exact hids kv hkv]
            exact hs kv hkv
          rw [sameStationSub_cons, if_neg]
          · exact ih _ _ rest1 hrec s hs
          · show ¬((keyIds _ == [s]) = true)
            rw [show keyIds (mkMerged a st url
                (displayFor cosF sinF (angles aIdx) st (counts st.props.station_id)).1
                (displayFor cosF sinF (angles aIdx) st (counts st.props.station_id)).2) =
              [st.props.station_id] from rfl]
            rw [beq_eq_false_iff_ne.mpr (fun hcon => hne (by injection hcon))]
            exact Bool.false_ne_true

theorem mergeLoop_sub_coords {R : Type} [LinearOrderedField R]
    (cosF sinF : R → R) (angles : ℕ → R) (dict : List (String × MStation))
    (hnd : (dict.map Prod.fst).Nodup)
    (hids : ∀ kv ∈ dict, kv.2.props.station_id = kv.1)
    (arts : List ArtworkRec) :
    ∀ counts aIdx out,
      mergeLoop cosF sinF angles dict counts aIdx arts = some out →
      ∀ s st, (s, st) ∈ dict →
        ∀ k (hk : k < (sameStationSub out s).length),
          ∃ θ, displayCoord ((sameStationSub out s).get ⟨k, hk⟩) =
            displayFor cosF sinF θ st (counts s + k) := by
  induction arts with
  | nil =>
    intro counts aIdx out h s st _ k hk
    have hout : ([] : List (MergedArtwork R)) = out := by injection h
    subst hout
    exact absurd hk (Nat.not_lt_zero k)
  | cons a rest ih =>
    intro counts aIdx out h s st hmem k hk
    cases hm : get_exact_station_match dict a with
    | none =>
      rw [mergeLoop_cons_none _ _ _ _ _ _ _ _ hm] at h
      exact ih counts aIdx out h s st hmem k hk
    | some st' =>
      rw [mergeLoop_cons_some _ _ _ _ _ _ _ _ _ hm] at h
      cases hurl : imageUrl a.art_image_link with
      | none => rw [hurl] at h; cases h
      | some url =>
        rw [hurl] at h
        simp only [Option.some_bind] at h
        cases hrec : mergeLoop cosF sinF angles dict
            (bumpCount counts st'.props.station_id)
            (nextAngleIdx aIdx (counts st'.props.station_id)) rest with
        | none => rw [hrec] at h; cases h
        | some rest1 =>
          rw [hrec] at h
          simp only [Option.some_bind, Option.some_inj] at h
          subst h
          have hstmem : st' ∈ dict.map Prod.snd := by
            rw [get_exact_eq_find?] at hm
            exact List.mem_of_find?_eq_some hm
          rcases List.mem_map.mp hstmem with ⟨kv, hkv, hkvs⟩
          have hkey : st'.props.station_id = kv.1 := by
            rw [← hkvs]
            exact hids kv hkv
          by_cases hss : st'.props.station_id = s
          · have hkvmem : (s, st') ∈ dict := by
              have hkveq : kv = (s, st') := by
                have h1 : kv.1 = s := by rw [← hkey, hss]
                have h2 : kv.2 = st' := hkvs
                rw [← h1, ← h2]
              rw [← hkveq]
              exact hkv
            have hstst : st = st' := keys_nodup_unique dict hnd s st st' hmem hkvmem
            subst hstst
            have hsub : sameStationSub
                (mkMerged a st url
                  (displayFor cosF sinF (angles aIdx) st (counts st.props.station_id)).1
                  (displayFor cosF sinF (angles aIdx) st (counts st.props.station_id)).2
                  :: rest1) s =
                mkMerged a st url
                  (displayFor cosF sinF (angles aIdx) st (counts st.props.station_id)).1
                  (displayFor cosF sinF (angles aIdx) st (counts st.props.station_id)).2
                  :: sameStationSub rest1 s := by
              rw [sameStationSub_cons, if_pos]
              show (keyIds _ == [s]) = true
              rw [show keyIds (mkMerged a st url _ _) =
                [st.props.station_id] from rfl, hss]
              exact beq_self_eq_true _
            have hget := List.get_of_eq hsub ⟨k, hk⟩
            rw [hget]
            cases k with
            | zero =>
              refine ⟨angles aIdx, ?_⟩
              show displayCoord (mkMerged a st url
                (displayFor cosF sinF (angles aIdx) st (counts st.props.station_id)).1
                (displayFor cosF sinF (angles aIdx) st (counts st.props.station_id)).2) = _
              rw [Nat.add_zero]
              show ((displayFor cosF sinF (angles aIdx) st (counts st.props.station_id)).1,
                (displayFor cosF sinF (angles aIdx) st (counts st.props.station_id)).2) = _
              rw [hss]
            | succ k1 =>
              have hk1 : k1 < (sameStationSub rest1 s).length := by
                have := hk
                rw [hsub] at this
                exact Nat.lt_of_succ_lt_succ (by simpa using this)
              obtain ⟨θ, hθ⟩ := ih _ _ rest1 hrec s st hmem k1 hk1
              refine ⟨θ, ?_⟩
              show displayCoord ((sameStationSub rest1 s).get ⟨k1, _⟩) = _
              rw [hθ]
              congr 1
              unfold bumpCount
              rw [if_pos hss.symm, hss]
              omega
          · have hsub : sameStationSub
                (mkMerged a st' url
                  (displayFor cosF sinF (angles aIdx) st' (counts st'.props.station_id)).1
                  (displayFor cosF sinF (angles aIdx) st' (counts st'.props.station_id)).2
                  :: rest1) s = sameStationSub rest1 s := by
              rw [sameStationSub_cons, if_neg]
              show ¬((keyIds _ == [s]) = true)
              rw [show keyIds (mkMerged a st' url _ _) =
                [st'.props.station_id] from rfl]
              rw [beq_eq_false_iff_ne.mpr (fun hcon => hss (by injection hcon))]
              exact Bool.false_ne_true
            have hget := List.get_of_eq hsub ⟨k, hk⟩
            rw [hget]
            have hk1 : k < (sameStationSub rest1 s).length := by
              have := hk
              rw [hsub] at this
              exact this
            obtain ⟨θ, hθ⟩ := ih _ _ rest1 hrec s st hmem k hk1
            refine ⟨θ, ?_⟩
            rw [show (sameStationSub rest1 s).get ⟨k, _⟩ =
              (sameStationSub rest1 s).get ⟨k, hk1⟩ from rfl, hθ]
            congr 1
            unfold bumpCount
            rw [if_neg (fun hcon => hss hcon.symm)]

/-- The offset radius for per-station index `k ≥ 1` is strictly positive. -/
theorem offsetRadius_pos {R : Type} [LinearOrderedField R] (k : ℕ)
    (hk : k ≠ 0) : (0 : R) < ((k : R) + 1) * (1 / 10000) := by
  have h1 : (0 : R) < (k : R) + 1 := by positivity
  have h2 : (0 : R) < (1 : R) / 10000 := by norm_num
  exact mul_pos h1 h2

/-- For any functions satisfying the Pythagorean identity, two artworks at
the same station with different per-station indices land on different
display coordinates: the radii `0 < 2/10⁴ < 3/10⁴ < …` are pairwise
distinct, and points at distinct radii from one centre differ. -/
theorem displayFor_ne {R : Type} [LinearOrderedField R] (cosF sinF : R → R)
    (hpyth : ∀ θ, cosF θ * cosF θ + sinF θ * sinF θ = 1) (st : MStation)
    (θ1 θ2 : R) (i j : ℕ) (hij : i ≠ j) :
    displayFor cosF sinF θ1 st i ≠ displayFor cosF sinF θ2 st j := by
  have key : ∀ (θa θb : R) (a b : ℕ), a = 0 → b ≠ 0 →
      displayFor cosF sinF θa st a ≠ displayFor cosF sinF θb st b := by
    intro θa θb a b ha hb heq
    subst ha
    rw [displayFor, if_pos rfl, displayFor, if_neg hb] at heq
    unfold offset_coordinates at heq
    rw [Prod.mk.injEq] at heq
    set ob : R := ((b : R) + 1) * (1 / 10000) with hob
    have hc : ob * cosF θb = 0 := by linarith [heq.1]
    have hs : ob * sinF θb = 0 := by linarith [heq.2]
    have hzero : ob * ob = 0 := by
      have hsum : (ob * cosF θb) * (ob * cosF θb) +
          (ob * sinF θb) * (ob * sinF θb) = 0 := by rw [hc, hs]; ring
      calc ob * ob = ob * ob * (cosF θb * cosF θb + sinF θb * sinF θb) := by
            rw [hpyth θb]; ring
        _ = (ob * cosF θb) * (ob * cosF θb) +
            (ob * sinF θb) * (ob * sinF θb) := by ring
        _ = 0 := hsum
    have hpos := offsetRadius_pos (R := R) b hb
    rw [← hob] at hpos
    nlinarith
  rcases Nat.eq_zero_or_pos i with hi | hi
  · rcases Nat.eq_zero_or_pos j with hj | hj
    · exact absurd (hi.trans hj.symm) hij
    · exact key θ1 θ2 i j hi (Nat.pos_iff_ne_zero.mp hj)
  · rcases Nat.eq_zero_or_pos j with hj | hj
    · exact fun heq => key θ2 θ1 j i hj (Nat.pos_iff_ne_zero.mp hi) heq.symm
    · -- both ≥ 1
      intro heq
      have hine := Nat.pos_iff_ne_zero.mp hi
      have hjne := Nat.pos_iff_ne_zero.mp hj
      rw [displayFor, if_neg hine, displayFor, if_neg hjne] at heq
      unfold offset_coordinates at heq
      rw [Prod.mk.injEq] at heq
      set oi : R := ((i : R) + 1) * (1 / 10000) with hoi
      set oj : R := ((j : R) + 1) * (1 / 10000) with hoj
      have hc : oi * cosF θ1 = oj * cosF θ2 := by linarith [heq.1]
      have hs : oi * sinF θ1 = oj * sinF θ2 := by linarith [heq.2]
      have hsq : oi * oi = oj * oj := by
        calc oi * oi = oi * oi * (cosF θ1 * cosF θ1 + sinF θ1 * sinF θ1) := by
              rw [hpyth θ1]; ring
          _ = (oi * cosF θ1) * (oi * cosF θ1) +
              (oi * sinF θ1) * (oi * sinF θ1) := by ring
          _ = (oj * cosF θ2) * (oj * cosF θ2) +
              (oj * sinF θ2) * (oj * sinF θ2) := by rw [hc, hs]
          _ = oj * oj * (cosF θ2 * cosF θ2 + sinF θ2 * sinF θ2) := by ring
          _ = oj * oj := by rw [hpyth θ2]; ring
      have hipos := offsetRadius_pos (R := R) i hine
      have hjpos := offsetRadius_pos (R := R) j hjne
      rw [← hoi] at hipos
      rw [← hoj] at hjpos
      have hfac : (oi - oj) * (oi + oj) = 0 := by nlinarith
      have hsumpos : (0 : R) < oi + oj := by linarith
      have hoioj : oi = oj := by
        rcases mul_eq_zero.mp hfac with h0 | h0
        · linarith [h0]
        · linarith
      have hcast : (i : R) = (j : R) := by
        rw [hoi, hoj] at hoioj
        have h10 : ((1 : R) / 10000) ≠ 0 := by norm_num
        have := mul_right_cancel₀ h10 hoioj
        linarith
      exact hij (Nat.cast_injective hcast)

/-! # Claim C4 -/

/-- **C4.** Within one `merge_data` pass, for every station and every
choice of the random angles, no two merged artworks assigned to the same
station receive identical display coordinates; moreover the `k`-th artwork
assigned to a station carries exactly the coordinate `displayFor … k` —
the station's exact location for `k = 0` and an offset at the strictly
positive, strictly increasing radius `(k+1) × 1/10000` for `k ≥ 1`.  The
only fact assumed about `math.cos`/`math.sin` is the Pythagorean
identity. -/
theorem c4_distinct_display_coordinates {R : Type} [LinearOrderedField R]
    (cosF sinF : R → R)
    (hpyth : ∀ θ, cosF θ * cosF θ + sinF θ * sinF θ = 1)
    (angles : ℕ → R) (stations : StationsDoc) (arts : List ArtworkRec)
    (out : List (MergedArtwork R))
    (h : merge_data cosF sinF angles stations arts = some out) (s : String) :
    (∀ i j (hi : i < (sameStationSub out s).length)
        (hj : j < (sameStationSub out s).length), i ≠ j →
      displayCoord ((sameStationSub out s).get ⟨i, hi⟩) ≠
        displayCoord ((sameStationSub out s).get ⟨j, hj⟩)) ∧
    ∀ dict st, buildStationDict stations = some dict → (s, st) ∈ dict →
      ∀ k (hk : k < (sameStationSub out s).length),
        ∃ θ, displayCoord ((sameStationSub out s).get ⟨k, hk⟩) =
          displayFor cosF sinF θ st k := by
  unfold merge_data at h
  rw [Option.bind_eq_some] at h
  obtain ⟨dict, hdict, hloop⟩ := h
  obtain ⟨hnd, hids⟩ := buildStationDict_wf stations dict hdict
  have hcoords :=
    mergeLoop_sub_coords cosF sinF angles dict hnd hids arts (fun _ => 0) 0
      out hloop
  constructor
  · intro i j hi hj hij
    by_cases hkey : ∃ kv ∈ dict, kv.1 = s
    · obtain ⟨kv, hkv, hkvs⟩ := hkey
      have hmem : (s, kv.2) ∈ dict := by
        have hkveq : kv = (s, kv.2) := by rw [← hkvs]
        rw [← hkveq]
        exact hkv
      obtain ⟨θ1, hθ1⟩ := hcoords s kv.2 hmem i hi
      obtain ⟨θ2, hθ2⟩ := hcoords s kv.2 hmem j hj
      rw [Nat.zero_add] at hθ1 hθ2
      rw [hθ1, hθ2]
      exact displayFor_ne cosF sinF hpyth kv.2 θ1 θ2 i j hij
    · push_neg at hkey
      have hsub := mergeLoop_sub_outside cosF sinF angles dict hids arts
        (fun _ => 0) 0 out hloop s hkey
      rw [hsub] at hi
      exact absurd hi (Nat.not_lt_zero i)
  · intro dict1 st hdict1 hmem k hk
    have hdd : dict = dict1 := by
      rw [hdict] at hdict1
      injection hdict1
    subst hdd
    obtain ⟨θ, hθ⟩ := hcoords s st hmem k hk
    rw [Nat.zero_add] at hθ
    exact ⟨θ, hθ⟩

/-- **C4 witness.** Instantiated at `ℚ` with `cos = 1`, `sin = 0` (which
satisfy the Pythagorean identity) on `oneStation` with `plainArt`, for the
station id `1`. -/
theorem c4_witness :
    (∀ i j (hi : i < (sameStationSub oneStationMergeOut "1").length)
        (hj : j < (sameStationSub oneStationMergeOut "1").length), i ≠ j →
      displayCoord ((sameStationSub oneStationMergeOut "1").get ⟨i, hi⟩) ≠
        displayCoord ((sameStationSub oneStationMergeOut "1").get ⟨j, hj⟩)) ∧
    ∀ dict st, buildStationDict oneStation = some dict → ("1", st) ∈ dict →
      ∀ k (hk : k < (sameStationSub oneStationMergeOut "1").length),
        ∃ θ, displayCoord ((sameStationSub oneStationMergeOut "1").get ⟨k, hk⟩) =
          displayFor cosQ sinQ θ st k :=
  c4_distinct_display_coordinates cosQ sinQ (fun θ => by norm_num [cosQ, sinQ])
    anglesQ oneStation [plainArt] oneStationMergeOut (by decide) "1"

end ArtMap
